import Mathlib

/-!
# LVGL View Manager: navigation controller

Shallow embedding of `src/src/lvgl_view_manager.c` and `src/inc/lvgl_view_manager.h`.

* A `const PageInfo_t*` is a `PagePtr`: `none` is `NULL`, `some a` is the address `a` of a
  descriptor; descriptors are immutable and are read through `pages : Nat → PageInfo_t`.
* The three module-level statics form `State`, together with a ghost `trace` recording, in
  order, every call the controller makes to a descriptor or to the toolkit.
* An access to `g_history_stack` outside `[0, MAX_HISTORY_DEEP)` is undefined behaviour in C;
  the array accessors return `none` there, and so do the operations that perform the access.
* `g_history_top` is a `uint8_t`: its increment is taken modulo 256.
-/

namespace LvglViewManager

/-- Capacity of the history array (`#define MAX_HISTORY_DEEP 5`). -/
def MAX_HISTORY_DEEP : Nat := 5

/-- Handle of a toolkit object: a non-null `lv_obj_t*`. -/
abbrev Obj := Nat

/-- External condition (toolkit heap, ...) under which a `create()` call runs. -/
abbrev World := Nat

/-- Page descriptor: the `create` / `deinit` function pointers (`none` is a null pointer).
`create` returns `none` for a `NULL` object; `deinit` is identified by a label. -/
structure PageInfo_t where
  create : Option (World → Option Obj)
  deinit : Option Nat

/-- Pointer to a descriptor: `none` is `NULL`, `some a` is the address `a`. -/
abbrev PagePtr := Option Nat

/-- Calls made by the controller and by its delete callback, in program order. -/
inductive Event where
  /-- `page_info->create()` was called on the descriptor at `page`, returning `result`. -/
  | create (page : Nat) (result : Option Obj)
  /-- `lv_obj_add_event_cb(obj, generic_delete_event_cb, LV_EVENT_DELETE, user_data)`. -/
  | lv_obj_add_event_cb (obj : Obj) (user_data : PagePtr)
  /-- `lv_scr_load_anim(new_scr, LV_LOAD_ANIM, LV_ANIMATION_TIME, 0, auto_del)`. -/
  | lv_scr_load_anim (new_scr : Obj) (auto_del : Bool)
  /-- `page_info->deinit(obj)` was called, `fn` being the label of the function. -/
  | deinit (fn : Nat) (obj : Obj)
  deriving DecidableEq, Repr

/-- The array `g_history_stack[MAX_HISTORY_DEEP]`. -/
structure HistoryArray where
  cells : List PagePtr
  size_eq : cells.length = MAX_HISTORY_DEEP
  deriving DecidableEq

/-- Read of `g_history_stack[i]`; `none` when `i` is out of bounds. -/
def HistoryArray.read (stk : HistoryArray) (i : Nat) : Option PagePtr :=
  stk.cells[i]?

/-- Write `g_history_stack[i] = v`; `none` when `i` is out of bounds. -/
def HistoryArray.write (stk : HistoryArray) (i : Nat) (v : PagePtr) : Option HistoryArray :=
  if i < MAX_HISTORY_DEEP then
    some ⟨stk.cells.set i v, by rw [List.length_set]; exact stk.size_eq⟩
  else none

/-- Module-level statics of the controller plus the ghost call trace. -/
structure State where
  g_current_page_info : PagePtr
  g_history_stack : HistoryArray
  g_history_top : Nat
  trace : List Event
  deriving DecidableEq

/-- Zero-initialised statics at program start. -/
def boot : State :=
  { g_current_page_info := none
    g_history_stack := ⟨List.replicate MAX_HISTORY_DEEP none, by simp⟩
    g_history_top := 0
    trace := [] }

/-- Body of `generic_delete_event_cb`: the calls it makes when the toolkit deletes `target`
with user data `user_data`. -/
def generic_delete_event_cb (pages : Nat → PageInfo_t) (user_data : PagePtr) (target : Obj) :
    List Event :=
  match user_data with
  | none => []
  | some a =>
    match (pages a).deinit with
    | none => []
    | some fn => [Event.deinit fn target]

/-- The overflow loop `for (i = 0; i < MAX_HISTORY_DEEP - 1; i++) stack[i] = stack[i + 1];`. -/
def shift_down (stk : HistoryArray) : Option HistoryArray :=
  (List.range (MAX_HISTORY_DEEP - 1)).foldlM
    (fun st i => (st.read (i + 1)).bind (fun v => st.write i v)) stk

/-- History update at the end of `do_switch_page` (the `if (!is_back)` block). -/
def push_history (page_info : PagePtr) (s : State) : Option State :=
  if s.g_history_top < MAX_HISTORY_DEEP then
    (s.g_history_stack.write s.g_history_top page_info).map fun stk =>
      { s with g_history_stack := stk, g_history_top := (s.g_history_top + 1) % 256 }
  else
    (shift_down s.g_history_stack).bind fun stk =>
      (stk.write (MAX_HISTORY_DEEP - 1) page_info).map fun stk2 =>
        { s with g_history_stack := stk2 }

/-- The function `do_switch_page(page_info, is_back)`, run under the external condition `w`. -/
def do_switch_page (pages : Nat → PageInfo_t) (w : World) (page_info : PagePtr)
    (is_back : Bool) (s : State) : Option State :=
  match page_info with
  | none => some s
  | some a =>
    match (pages a).create with
    | none => some s
    | some create =>
      if !is_back && page_info == s.g_current_page_info then some s
      else
        match create w with
        | none => some { s with trace := s.trace ++ [Event.create a none] }
        | some new_page =>
          let s1 : State :=
            { s with
              trace := s.trace ++
                [Event.create a (some new_page),
                 Event.lv_obj_add_event_cb new_page page_info,
                 Event.lv_scr_load_anim new_page true]
              g_current_page_info := page_info }
          if !is_back then push_history page_info s1 else some s1

/-- The function `screen_manager_init()`. -/
def screen_manager_init (s : State) : State :=
  { s with g_current_page_info := none, g_history_top := 0 }

/-- The function `screen_manager_switch_page(page_info)`. -/
def screen_manager_switch_page (pages : Nat → PageInfo_t) (w : World) (page_info : PagePtr)
    (s : State) : Option State :=
  do_switch_page pages w page_info false s

/-- The function `screen_manager_back()`. The index `g_history_top - 1` is computed after the
decrement, under the guard `g_history_top > 1`, so it does not go below zero. -/
def screen_manager_back (pages : Nat → PageInfo_t) (w : World) (s : State) : Option State :=
  if s.g_history_top > 1 then
    let s1 : State := { s with g_history_top := s.g_history_top - 1 }
    (s1.g_history_stack.read (s1.g_history_top - 1)).bind fun previous_page_info =>
      do_switch_page pages w previous_page_info true s1
  else some s

/-- Logical content of the history: the first `g_history_top` cells, oldest first. -/
def history (s : State) : List PagePtr :=
  s.g_history_stack.cells.take s.g_history_top

/-- Addresses of the descriptors whose `create` was called, in call order. -/
def createCalls (t : List Event) : List Nat :=
  t.filterMap fun e => match e with
    | Event.create a _ => some a
    | _ => none

/-- Hook registrations `(object, user data)` made through `lv_obj_add_event_cb`, in order. -/
def hooks (t : List Event) : List (Obj × PagePtr) :=
  t.filterMap fun e => match e with
    | Event.lv_obj_add_event_cb o p => some (o, p)
    | _ => none

/-- Objects passed to `lv_scr_load_anim`, in order. -/
def transitions (t : List Event) : List Obj :=
  t.filterMap fun e => match e with
    | Event.lv_scr_load_anim o _ => some o
    | _ => none

/-- A call of the public API, with the external condition it runs under. -/
inductive Op where
  | init
  | switch_page (w : World) (page_info : PagePtr)
  | back (w : World)
  deriving DecidableEq, Repr

/-- One public call. -/
def step (pages : Nat → PageInfo_t) (op : Op) (s : State) : Option State :=
  match op with
  | Op.init => some (screen_manager_init s)
  | Op.switch_page w p => screen_manager_switch_page pages w p s
  | Op.back w => screen_manager_back pages w s

/-- A finite sequence of public calls, left to right. -/
def run (pages : Nat → PageInfo_t) : List Op → State → Option State
  | [], s => some s
  | op :: ops, s => (step pages op s).bind (run pages ops)

/-- Example descriptor table: odd addresses have a `create` that succeeds exactly when the
external condition is non-zero (returning object `100 * a + w`); even addresses have no
`create`. Address `a` has `deinit` label `a` when `a ≥ 2`. -/
def pagesEx (a : Nat) : PageInfo_t :=
  { create := if a % 2 = 1 then some (fun w => if w = 0 then none else some (100 * a + w))
              else none
    deinit := if 2 ≤ a then some a else none }

/-- Example state: three entries recorded, descriptor 5 active. -/
def stEx3 : State :=
  { g_current_page_info := some 5
    g_history_stack := ⟨[some 1, some 3, some 5, none, none], by decide⟩
    g_history_top := 3
    trace := [] }

/-- Example state: full history, descriptor 9 active. -/
def stExFull : State :=
  { g_current_page_info := some 9
    g_history_stack := ⟨[some 1, some 3, some 5, some 7, some 9], by decide⟩
    g_history_top := 5
    trace := [] }

/-- State after a successful creation: the three calls are traced and the active reference is
updated (lines 64-70 of the source). -/
def afterLoad (s : State) (a : Nat) (new_page : Obj) : State :=
  { s with
    trace := s.trace ++
      [Event.create a (some new_page),
       Event.lv_obj_add_event_cb new_page (some a),
       Event.lv_scr_load_anim new_page true]
    g_current_page_info := some a }

/-- Modelled from the spec: the toolkit side of the page lifetime, which is not part of the
repository. `screen` is the controller-created object the toolkit currently displays (`none`
while it still shows its own initial screen); `unreleased` lists the objects created through
a descriptor and not yet handed to the toolkit for deletion. -/
structure Toolkit where
  screen : Option Obj
  unreleased : List Obj
  deriving DecidableEq, Repr

/-- Modelled from the spec: effect of one traced call on the toolkit. A successful `create()`
adds the new object; `lv_scr_load_anim(new, .., auto_del)` displays `new` and, when `auto_del`
is set, hands the previously displayed object to the toolkit for automatic deletion ("加载新页
+自动删旧页", and the transition primitive of the spec's external interfaces). -/
def toolkitStep (t : Toolkit) : Event → Toolkit
  | Event.create _ (some o) => { t with unreleased := t.unreleased ++ [o] }
  | Event.lv_scr_load_anim o auto_del =>
    { screen := some o
      unreleased :=
        if auto_del then
          match t.screen with
          | some old => t.unreleased.erase old
          | none => t.unreleased
        else t.unreleased }
  | _ => t

/-- Toolkit situation after a call trace, starting with no controller-created object. -/
def toolkitAfter (trace : List Event) : Toolkit :=
  trace.foldl toolkitStep { screen := none, unreleased := [] }

/-- Page objects created by the controller and not yet released for deletion. -/
def livePages (s : State) : List Obj :=
  (toolkitAfter s.trace).unreleased

/-- The controller-created page object currently displayed, if any. -/
def displayedPage (s : State) : Option Obj :=
  (toolkitAfter s.trace).screen

/-- The live pages are exactly the displayed page, and a page is displayed exactly when the
active reference is set. -/
def LifetimeInv (s : State) : Prop :=
  livePages s = (displayedPage s).toList ∧
    (displayedPage s = none ↔ s.g_current_page_info = none)

/-- The `switch_to` calls of a sequence `(condition, descriptor)`, as public calls. -/
def switchCalls (calls : List (World × PagePtr)) : List Op :=
  calls.map fun c => Op.switch_page c.1 c.2

/-- Successful creations `(object, descriptor)`: the `create` calls that returned an object. -/
def creations (t : List Event) : List (Obj × PagePtr) :=
  t.filterMap fun e => match e with
    | Event.create a (some o) => some (o, some a)
    | _ => none

/-- Calls `(label, object)` of a descriptor's `deinit`, in order. -/
def deinitCalls (t : List Event) : List (Nat × Obj) :=
  t.filterMap fun e => match e with
    | Event.deinit fn o => some (fn, o)
    | _ => none

/-- Addresses of the descriptors whose `create` was called and returned null. -/
def failedCreates (t : List Event) : List Nat :=
  t.filterMap fun e => match e with
    | Event.create a none => some a
    | _ => none

/-- Every entry recorded in the history is a non-null descriptor with a `create`. -/
def ValidHistory (pages : Nat → PageInfo_t) (s : State) : Prop :=
  ∀ p ∈ history s, ∃ a create, p = some a ∧ (pages a).create = some create

/-- Bounded top and valid recorded entries: holds in every state reached after `init()`. -/
def Safe (pages : Nat → PageInfo_t) (s : State) : Prop :=
  s.g_history_top ≤ MAX_HISTORY_DEEP ∧ ValidHistory pages s

/-- Invariant of the runs in which no `create()` fails: `Safe`, the active reference is the
top entry of the history (null when the history is empty), and neighbouring entries differ. -/
def Tidy (pages : Nat → PageInfo_t) (s : State) : Prop :=
  Safe pages s ∧
    s.g_current_page_info = (history s).getLast?.getD none ∧
    (history s).Chain' (fun p q => p ≠ q)

/-- One public call, tracking next to the state the descriptor that was active immediately
before the currently active one: it is updated whenever the call changes the active
reference. -/
def stepPrev (pages : Nat → PageInfo_t) (op : Op) (sp : State × PagePtr) :
    Option (State × PagePtr) :=
  (step pages op sp.1).map fun s2 =>
    (s2, if s2.g_current_page_info = sp.1.g_current_page_info then sp.2
         else sp.1.g_current_page_info)

/-- A sequence of public calls, tracking the previously active descriptor. -/
def runPrev (pages : Nat → PageInfo_t) : List Op → State × PagePtr → Option (State × PagePtr)
  | [], sp => some sp
  | op :: ops, sp => (stepPrev pages op sp).bind (runPrev pages ops)

/-- Example state reached by `init`, `switch_to(1)`, `switch_to(3)`, `back()` from `boot`. -/
def stExBack : State :=
  { g_current_page_info := some 1
    g_history_stack := ⟨[some 1, some 3, none, none, none], by decide⟩
    g_history_top := 1
    trace :=
      [Event.create 1 (some 101), Event.lv_obj_add_event_cb 101 (some 1),
       Event.lv_scr_load_anim 101 true,
       Event.create 3 (some 301), Event.lv_obj_add_event_cb 301 (some 3),
       Event.lv_scr_load_anim 301 true,
       Event.create 1 (some 102), Event.lv_obj_add_event_cb 102 (some 1),
       Event.lv_scr_load_anim 102 true] }

/-- Example state reached by `init`, `switch_to(1)`, `switch_to(3)` from `boot`. -/
def stExTwo : State :=
  { g_current_page_info := some 3
    g_history_stack := ⟨[some 1, some 3, none, none, none], by decide⟩
    g_history_top := 2
    trace :=
      [Event.create 1 (some 101), Event.lv_obj_add_event_cb 101 (some 1),
       Event.lv_scr_load_anim 101 true,
       Event.create 3 (some 301), Event.lv_obj_add_event_cb 301 (some 3),
       Event.lv_scr_load_anim 301 true] }

/-- The descriptor at `a` is valid and its `create()` succeeds under every condition. -/
def AlwaysCreates (pages : Nat → PageInfo_t) (a : Nat) : Prop :=
  ∃ create, (pages a).create = some create ∧ ∀ w, ∃ o, create w = some o

/-- Every recorded entry is a descriptor whose `create()` returned an object in the part of
the trace that follows its first `n` calls. -/
def CreatedSince (n : Nat) (s : State) : Prop :=
  n ≤ s.trace.length ∧
    ∀ p ∈ history s, ∃ a o, p = some a ∧ Event.create a (some o) ∈ s.trace.drop n

/-- Example descriptor table in which every descriptor is valid and `create()` always
succeeds, returning object `10 * a + w`. -/
def pagesOk (a : Nat) : PageInfo_t :=
  { create := some (fun w => some (10 * a + w))
    deinit := none }

/-! ## Array lemmas -/

theorem cells_five (stk : HistoryArray) :
    ∃ a b c d e, stk.cells = [a, b, c, d, e] := by
  obtain ⟨cells, hlen⟩ := stk
  match cells, hlen with
  | [a, b, c, d, e], _ => exact ⟨a, b, c, d, e, rfl⟩

theorem write_spare (stk : HistoryArray) (i : Nat) (v : PagePtr) (h : i < MAX_HISTORY_DEEP) :
    ∃ stk2, stk.write i v = some stk2 ∧ stk2.cells = stk.cells.set i v := by
  refine ⟨⟨stk.cells.set i v, by rw [List.length_set]; exact stk.size_eq⟩, ?_, rfl⟩
  simp [HistoryArray.write, h]

theorem shift_down_cells (stk : HistoryArray) :
    ∃ stk2, shift_down stk = some stk2 ∧ stk2.cells = stk.cells.tail ++ stk.cells.drop 4 := by
  obtain ⟨cells, hlen⟩ := stk
  match cells, hlen with
  | [a, b, c, d, e], _ =>
    refine ⟨⟨[b, c, d, e, e], rfl⟩, ?_, rfl⟩
    simp [shift_down, MAX_HISTORY_DEEP, List.range_succ, HistoryArray.read,
      HistoryArray.write]

theorem push_history_spare (p : PagePtr) (s : State) (h : s.g_history_top < MAX_HISTORY_DEEP) :
    ∃ stk, push_history p s
        = some { s with g_history_stack := stk, g_history_top := s.g_history_top + 1 } ∧
      stk.cells = s.g_history_stack.cells.set s.g_history_top p := by
  obtain ⟨stk, hw, hc⟩ := write_spare s.g_history_stack s.g_history_top p h
  refine ⟨stk, ?_, hc⟩
  have hmod : (s.g_history_top + 1) % 256 = s.g_history_top + 1 := by
    unfold MAX_HISTORY_DEEP at h; omega
  simp [push_history, h, hw, hmod]

theorem push_history_full (p : PagePtr) (s : State) (h : ¬ s.g_history_top < MAX_HISTORY_DEEP) :
    ∃ stk, push_history p s = some { s with g_history_stack := stk } ∧
      stk.cells = s.g_history_stack.cells.tail ++ [p] := by
  obtain ⟨a, b, c, d, e, habc⟩ := cells_five s.g_history_stack
  obtain ⟨stk1, hs, hc1⟩ := shift_down_cells s.g_history_stack
  obtain ⟨stk2, hw, hc2⟩ := write_spare stk1 (MAX_HISTORY_DEEP - 1) p (by decide)
  refine ⟨stk2, ?_, ?_⟩
  · simp [push_history, h, hs, hw]
  · rw [hc2, hc1, habc]; rfl

theorem take_set_succ (l : List PagePtr) (i : Nat) (v : PagePtr) (h : i < l.length) :
    (l.set i v).take (i + 1) = l.take i ++ [v] := by
  induction l generalizing i with
  | nil => simp at h
  | cons x xs ih =>
    cases i with
    | zero => simp
    | succ j =>
      have hj : j < xs.length := by simpa using h
      simp [ih j hj]

/-! ## The switch core -/

theorem do_switch_page_forward (pages : Nat → PageInfo_t) (w : World) (a : Nat)
    (create : World → Option Obj) (new_page : Obj) (s : State)
    (hcreate : (pages a).create = some create) (hobj : create w = some new_page)
    (hactive : s.g_current_page_info ≠ some a) :
    do_switch_page pages w (some a) false s = push_history (some a) (afterLoad s a new_page) := by
  have hne : ¬ (some a = s.g_current_page_info) := fun h => hactive h.symm
  simp [do_switch_page, hcreate, hobj, hne, afterLoad]

theorem do_switch_page_backward (pages : Nat → PageInfo_t) (w : World) (a : Nat)
    (create : World → Option Obj) (new_page : Obj) (s : State)
    (hcreate : (pages a).create = some create) (hobj : create w = some new_page) :
    do_switch_page pages w (some a) true s = some (afterLoad s a new_page) := by
  simp [do_switch_page, hcreate, hobj, afterLoad]

theorem do_switch_page_failed (pages : Nat → PageInfo_t) (w : World) (a : Nat)
    (create : World → Option Obj) (is_back : Bool) (s : State)
    (hcreate : (pages a).create = some create) (hobj : create w = none)
    (hgo : is_back = true ∨ s.g_current_page_info ≠ some a) :
    do_switch_page pages w (some a) is_back s
      = some { s with trace := s.trace ++ [Event.create a none] } := by
  rcases hgo with hb | hactive
  · simp [do_switch_page, hcreate, hobj, hb]
  · have hne : ¬ (some a = s.g_current_page_info) := fun h => hactive h.symm
    simp [do_switch_page, hcreate, hobj, hne]

theorem createCalls_append (t u : List Event) :
    createCalls (t ++ u) = createCalls t ++ createCalls u := by
  simp [createCalls]

theorem hooks_append (t u : List Event) : hooks (t ++ u) = hooks t ++ hooks u := by
  simp [hooks]

theorem transitions_append (t u : List Event) :
    transitions (t ++ u) = transitions t ++ transitions u := by
  simp [transitions]

theorem push_history_bounded (p : PagePtr) (s : State) :
    ∃ s2, push_history p s = some s2 ∧
      (s.g_history_top ≤ MAX_HISTORY_DEEP → s2.g_history_top ≤ MAX_HISTORY_DEEP) := by
  by_cases h : s.g_history_top < MAX_HISTORY_DEEP
  · obtain ⟨stk, hpush, _⟩ := push_history_spare p s h
    exact ⟨_, hpush, fun _ => h⟩
  · obtain ⟨stk, hpush, _⟩ := push_history_full p s h
    exact ⟨_, hpush, fun hle => hle⟩

theorem do_switch_page_null (pages : Nat → PageInfo_t) (w : World) (is_back : Bool)
    (s : State) : do_switch_page pages w none is_back s = some s := rfl

theorem do_switch_page_no_create (pages : Nat → PageInfo_t) (w : World) (a : Nat)
    (is_back : Bool) (s : State) (hcreate : (pages a).create = none) :
    do_switch_page pages w (some a) is_back s = some s := by
  simp [do_switch_page, hcreate]

theorem do_switch_page_active (pages : Nat → PageInfo_t) (w : World) (a : Nat) (s : State)
    (hactive : s.g_current_page_info = some a) :
    do_switch_page pages w (some a) false s = some s := by
  rcases hc : (pages a).create with _ | create
  · exact do_switch_page_no_create pages w a false s hc
  · simp [do_switch_page, hc, hactive]

/-- Case analysis of `do_switch_page`: the five ways the function returns. -/
theorem do_switch_page_cases (pages : Nat → PageInfo_t) (w : World) (p : PagePtr)
    (is_back : Bool) (s : State) :
    do_switch_page pages w p is_back s = some s ∨
    (∃ a, p = some a ∧ do_switch_page pages w p is_back s
        = some { s with trace := s.trace ++ [Event.create a none] }) ∨
    (∃ a new_page, p = some a ∧ is_back = true ∧
      do_switch_page pages w p is_back s = some (afterLoad s a new_page)) ∨
    (∃ a new_page, p = some a ∧ is_back = false ∧ s.g_current_page_info ≠ some a ∧
      do_switch_page pages w p is_back s = push_history (some a) (afterLoad s a new_page)) := by
  cases p with
  | none => exact Or.inl rfl
  | some a =>
    rcases hc : (pages a).create with _ | create
    · exact Or.inl (do_switch_page_no_create pages w a is_back s hc)
    · cases is_back with
      | true =>
        rcases ho : create w with _ | new_page
        · exact Or.inr (Or.inl ⟨a, rfl,
            do_switch_page_failed pages w a create true s hc ho (Or.inl rfl)⟩)
        · exact Or.inr (Or.inr (Or.inl ⟨a, new_page, rfl, rfl,
            do_switch_page_backward pages w a create new_page s hc ho⟩))
      | false =>
        by_cases hactive : s.g_current_page_info = some a
        · exact Or.inl (do_switch_page_active pages w a s hactive)
        · rcases ho : create w with _ | new_page
          · exact Or.inr (Or.inl ⟨a, rfl,
              do_switch_page_failed pages w a create false s hc ho (Or.inr hactive)⟩)
          · exact Or.inr (Or.inr (Or.inr ⟨a, new_page, rfl, rfl, hactive,
              do_switch_page_forward pages w a create new_page s hc ho hactive⟩))

theorem do_switch_page_bounded (pages : Nat → PageInfo_t) (w : World) (p : PagePtr)
    (is_back : Bool) (s : State) :
    ∃ s2, do_switch_page pages w p is_back s = some s2 ∧
      (s.g_history_top ≤ MAX_HISTORY_DEEP → s2.g_history_top ≤ MAX_HISTORY_DEEP) := by
  rcases do_switch_page_cases pages w p is_back s with h | ⟨a, _, h⟩ | ⟨a, o, _, _, h⟩ |
    ⟨a, o, _, _, _, h⟩
  · exact ⟨_, h, id⟩
  · exact ⟨_, h, id⟩
  · exact ⟨_, h, id⟩
  · rw [h]; exact push_history_bounded _ _

theorem read_defined (stk : HistoryArray) (i : Nat) (h : i < MAX_HISTORY_DEEP) :
    ∃ p, stk.read i = some p ∧ stk.cells[i]? = some p := by
  have hi : i < stk.cells.length := by rw [stk.size_eq]; exact h
  exact ⟨stk.cells[i], by simp [HistoryArray.read, hi], by simp [hi]⟩

theorem screen_manager_back_bounded (pages : Nat → PageInfo_t) (w : World) (s : State)
    (hs : s.g_history_top ≤ MAX_HISTORY_DEEP) :
    ∃ s2, screen_manager_back pages w s = some s2 ∧ s2.g_history_top ≤ MAX_HISTORY_DEEP := by
  unfold screen_manager_back
  split
  · rename_i hgt
    dsimp only
    obtain ⟨p, hp, _⟩ := read_defined s.g_history_stack (s.g_history_top - 1 - 1)
      (by unfold MAX_HISTORY_DEEP at *; omega)
    rw [hp]
    obtain ⟨s2, h2, hb⟩ := do_switch_page_bounded pages w p true
      { s with g_history_top := s.g_history_top - 1 }
    exact ⟨s2, h2, hb (by show s.g_history_top - 1 ≤ MAX_HISTORY_DEEP; omega)⟩
  · exact ⟨s, rfl, hs⟩

theorem step_bounded (pages : Nat → PageInfo_t) (op : Op) (s : State)
    (hs : s.g_history_top ≤ MAX_HISTORY_DEEP) :
    ∃ s2, step pages op s = some s2 ∧ s2.g_history_top ≤ MAX_HISTORY_DEEP := by
  cases op with
  | init => exact ⟨_, rfl, Nat.zero_le _⟩
  | switch_page w p =>
    obtain ⟨s2, h2, hb⟩ := do_switch_page_bounded pages w p false s
    exact ⟨s2, h2, hb hs⟩
  | back w => exact screen_manager_back_bounded pages w s hs

theorem run_bounded (pages : Nat → PageInfo_t) (ops : List Op) (s : State)
    (hs : s.g_history_top ≤ MAX_HISTORY_DEEP) :
    ∃ s2, run pages ops s = some s2 ∧ s2.g_history_top ≤ MAX_HISTORY_DEEP := by
  induction ops generalizing s with
  | nil => exact ⟨s, rfl, hs⟩
  | cons op ops ih =>
    obtain ⟨s1, h1, hb1⟩ := step_bounded pages op s hs
    obtain ⟨s2, h2, hb2⟩ := ih s1 hb1
    exact ⟨s2, by simp [run, h1, h2], hb2⟩

theorem take_pred_eq_dropLast (l : List PagePtr) (n : Nat) (h : n ≤ l.length) :
    l.take (n - 1) = (l.take n).dropLast := by
  rw [List.dropLast_eq_take, List.length_take, List.take_take]
  congr 1
  omega

theorem history_length (s : State) (hcap : s.g_history_top ≤ MAX_HISTORY_DEEP) :
    (history s).length = s.g_history_top := by
  unfold history
  rw [List.length_take, s.g_history_stack.size_eq]
  exact Nat.min_eq_left hcap

/-- With at least two entries recorded, `back()` decrements the top and runs the switch core
on the entry below the old top. -/
theorem screen_manager_back_reads (pages : Nat → PageInfo_t) (w : World) (s : State)
    (p : PagePtr) (hdepth : 2 ≤ s.g_history_top)
    (hprev : (history s)[s.g_history_top - 2]? = some p) :
    screen_manager_back pages w s
      = do_switch_page pages w p true { s with g_history_top := s.g_history_top - 1 } := by
  have hlt : s.g_history_top - 2 < s.g_history_top := by omega
  have hcell : s.g_history_stack.cells[s.g_history_top - 1 - 1]? = some p := by
    have h := hprev
    unfold history at h
    rw [List.getElem?_take, if_pos hlt] at h
    rw [Nat.sub_sub]; exact h
  have hgt : s.g_history_top > 1 := by omega
  simp [screen_manager_back, hgt, HistoryArray.read, hcell]

/-! ## Page lifetime -/

theorem toolkitAfter_append (t u : List Event) :
    toolkitAfter (t ++ u) = u.foldl toolkitStep (toolkitAfter t) := by
  simp [toolkitAfter, List.foldl_append]

theorem push_history_frame (p : PagePtr) (s : State) :
    ∃ s2, push_history p s = some s2 ∧ s2.trace = s.trace ∧
      s2.g_current_page_info = s.g_current_page_info := by
  by_cases h : s.g_history_top < MAX_HISTORY_DEEP
  · obtain ⟨stk, hpush, _⟩ := push_history_spare p s h
    exact ⟨_, hpush, rfl, rfl⟩
  · obtain ⟨stk, hpush, _⟩ := push_history_full p s h
    exact ⟨_, hpush, rfl, rfl⟩

theorem lifetime_after_load (s s2 : State) (a : Nat) (new_page : Obj) (hinv : LifetimeInv s)
    (htrace : s2.trace = (afterLoad s a new_page).trace)
    (hcur : s2.g_current_page_info = some a) : LifetimeInv s2 := by
  obtain ⟨hlive, _⟩ := hinv
  unfold livePages displayedPage at hlive
  have htk : toolkitAfter s2.trace = { screen := some new_page, unreleased := [new_page] } := by
    rw [htrace]
    show toolkitAfter (s.trace ++ _) = _
    rw [toolkitAfter_append]
    rcases hscr : (toolkitAfter s.trace).screen with _ | old
    · rw [hscr] at hlive
      simp [toolkitStep, hscr, hlive]
    · rw [hscr] at hlive
      simp [toolkitStep, hscr, hlive]
  unfold LifetimeInv livePages displayedPage
  rw [htk, hcur]
  simp

theorem lifetime_switch_page (pages : Nat → PageInfo_t) (w : World) (p : PagePtr) (s : State)
    (hinv : LifetimeInv s) :
    ∃ s2, screen_manager_switch_page pages w p s = some s2 ∧ LifetimeInv s2 := by
  unfold screen_manager_switch_page
  rcases do_switch_page_cases pages w p false s with h | ⟨a, _, h⟩ | ⟨a, o, _, hb, _⟩ |
    ⟨a, o, _, _, _, h⟩
  · exact ⟨s, h, hinv⟩
  · refine ⟨_, h, ?_⟩
    have htk : toolkitAfter (s.trace ++ [Event.create a none]) = toolkitAfter s.trace := by
      rw [toolkitAfter_append]; rfl
    unfold LifetimeInv livePages displayedPage
    show (toolkitAfter (s.trace ++ [Event.create a none])).unreleased = _ ∧ _
    rw [htk]
    exact hinv
  · cases hb
  · obtain ⟨s2, hpush, htrace, hcur⟩ := push_history_frame (some a) (afterLoad s a o)
    rw [h]
    exact ⟨s2, hpush, lifetime_after_load s s2 a o hinv htrace hcur⟩

theorem lifetime_switchCalls (pages : Nat → PageInfo_t) (calls : List (World × PagePtr))
    (s : State) (hinv : LifetimeInv s) :
    ∃ s2, run pages (switchCalls calls) s = some s2 ∧ LifetimeInv s2 := by
  induction calls generalizing s with
  | nil => exact ⟨s, rfl, hinv⟩
  | cons c cs ih =>
    obtain ⟨s1, h1, hinv1⟩ := lifetime_switch_page pages c.1 c.2 s hinv
    obtain ⟨s2, h2, hinv2⟩ := ih s1 hinv1
    exact ⟨s2, by simp [switchCalls, run, step, h1]; exact h2, hinv2⟩

/-! ## Effect of one call on the logical state -/

theorem history_init (s : State) : history (screen_manager_init s) = [] := by
  simp [history, screen_manager_init]

/-- A `switch_to` whose creation succeeds: active reference, trace and history afterwards. -/
theorem switch_page_succeeds (pages : Nat → PageInfo_t) (w : World) (a : Nat)
    (create : World → Option Obj) (new_page : Obj) (s : State)
    (hcap : s.g_history_top ≤ MAX_HISTORY_DEEP)
    (hcreate : (pages a).create = some create) (hobj : create w = some new_page)
    (hactive : s.g_current_page_info ≠ some a) :
    ∃ s2, screen_manager_switch_page pages w (some a) s = some s2 ∧
      s2.g_history_top ≤ MAX_HISTORY_DEEP ∧
      s2.g_current_page_info = some a ∧
      s2.trace = (afterLoad s a new_page).trace ∧
      history s2 = (if s.g_history_top < MAX_HISTORY_DEEP then history s
        else (history s).tail) ++ [some a] := by
  unfold screen_manager_switch_page
  rw [do_switch_page_forward pages w a create new_page s hcreate hobj hactive]
  by_cases hlt : s.g_history_top < MAX_HISTORY_DEEP
  · obtain ⟨stk, hpush, hcells⟩ := push_history_spare (some a) (afterLoad s a new_page) hlt
    have hlen : s.g_history_top < s.g_history_stack.cells.length := by
      rw [s.g_history_stack.size_eq]; exact hlt
    refine ⟨_, hpush, hlt, rfl, rfl, ?_⟩
    rw [if_pos hlt]
    show List.take (s.g_history_top + 1) stk.cells = _
    rw [hcells]
    exact take_set_succ s.g_history_stack.cells s.g_history_top (some a) hlen
  · obtain ⟨stk, hpush, hcells⟩ := push_history_full (some a) (afterLoad s a new_page) hlt
    have htop : s.g_history_top = MAX_HISTORY_DEEP := by omega
    obtain ⟨c0, c1, c2, c3, c4, hc⟩ := cells_five s.g_history_stack
    refine ⟨_, hpush, hcap, rfl, rfl, ?_⟩
    rw [if_neg hlt]
    show List.take s.g_history_top stk.cells = (List.take _ _).tail ++ _
    rw [hcells]
    show List.take s.g_history_top (s.g_history_stack.cells.tail ++ _) = _
    rw [hc, htop]; rfl

/-- Every way a `switch_to` call can end, from a state with a bounded top. -/
theorem switch_page_effect (pages : Nat → PageInfo_t) (w : World) (p : PagePtr) (s : State)
    (hcap : s.g_history_top ≤ MAX_HISTORY_DEEP) :
    ∃ s2, screen_manager_switch_page pages w p s = some s2 ∧
      s2.g_history_top ≤ MAX_HISTORY_DEEP ∧
      (s2 = s ∨
       (∃ a, s2 = { s with trace := s.trace ++ [Event.create a none] }) ∨
       (∃ a create new_page, p = some a ∧ (pages a).create = some create ∧
          create w = some new_page ∧ s.g_current_page_info ≠ some a ∧
          s2.g_current_page_info = some a ∧
          s2.trace = (afterLoad s a new_page).trace ∧
          history s2 = (if s.g_history_top < MAX_HISTORY_DEEP then history s
            else (history s).tail) ++ [some a])) := by
  cases p with
  | none => exact ⟨s, rfl, hcap, Or.inl rfl⟩
  | some a =>
    rcases hc : (pages a).create with _ | create
    · exact ⟨s, do_switch_page_no_create pages w a false s hc, hcap, Or.inl rfl⟩
    · by_cases hactive : s.g_current_page_info = some a
      · exact ⟨s, do_switch_page_active pages w a s hactive, hcap, Or.inl rfl⟩
      · rcases ho : create w with _ | new_page
        · exact ⟨_, do_switch_page_failed pages w a create false s hc ho (Or.inr hactive),
            hcap, Or.inr (Or.inl ⟨a, rfl⟩)⟩
        · obtain ⟨s2, h2, hcap2, hcur, htr, hhist⟩ :=
            switch_page_succeeds pages w a create new_page s hcap hc ho hactive
          exact ⟨s2, h2, hcap2, Or.inr (Or.inr
            ⟨a, create, new_page, rfl, hc, ho, hactive, hcur, htr, hhist⟩)⟩

theorem history_entry_below_top (s : State) (hdepth : 2 ≤ s.g_history_top)
    (hcap : s.g_history_top ≤ MAX_HISTORY_DEEP) :
    ∃ p, (history s)[s.g_history_top - 2]? = some p := by
  have hlt : s.g_history_top - 2 < (history s).length := by
    rw [history_length s hcap]; omega
  exact ⟨(history s)[s.g_history_top - 2], by simp [hlt]⟩

/-- Every way a `back()` call can end, from a state with a bounded top. -/
theorem back_effect (pages : Nat → PageInfo_t) (w : World) (s : State)
    (hcap : s.g_history_top ≤ MAX_HISTORY_DEEP) :
    ∃ s2, screen_manager_back pages w s = some s2 ∧
      s2.g_history_top ≤ MAX_HISTORY_DEEP ∧
      ((s.g_history_top < 2 ∧ s2 = s) ∨
       (2 ≤ s.g_history_top ∧ ∃ p, (history s)[s.g_history_top - 2]? = some p ∧
          history s2 = (history s).dropLast ∧
          s2.g_history_top = s.g_history_top - 1 ∧
          (((p = none ∨ ∃ a, p = some a ∧ (pages a).create = none) ∧
              s2.g_current_page_info = s.g_current_page_info ∧ s2.trace = s.trace) ∨
           (∃ a, p = some a ∧ s2.g_current_page_info = s.g_current_page_info ∧
              s2.trace = s.trace ++ [Event.create a none]) ∨
           (∃ a create new_page, p = some a ∧ (pages a).create = some create ∧
              create w = some new_page ∧ s2.g_current_page_info = some a ∧
              s2.trace = (afterLoad s a new_page).trace)))) := by
  by_cases hshort : s.g_history_top < 2
  · have hle : ¬ s.g_history_top > 1 := by omega
    exact ⟨s, by simp [screen_manager_back, hle], hcap, Or.inl ⟨hshort, rfl⟩⟩
  · have hdepth : 2 ≤ s.g_history_top := by omega
    obtain ⟨p, hp⟩ := history_entry_below_top s hdepth hcap
    have hlen : s.g_history_top ≤ s.g_history_stack.cells.length := by
      rw [s.g_history_stack.size_eq]; exact hcap
    have hpop : List.take (s.g_history_top - 1) s.g_history_stack.cells
        = (history s).dropLast := take_pred_eq_dropLast _ _ hlen
    have hcap1 : s.g_history_top - 1 ≤ MAX_HISTORY_DEEP := by omega
    rw [screen_manager_back_reads pages w s p hdepth hp]
    cases p with
    | none =>
      exact ⟨_, rfl, hcap1, Or.inr ⟨hdepth, none, hp, hpop, rfl,
        Or.inl ⟨Or.inl rfl, rfl, rfl⟩⟩⟩
    | some a =>
      rcases hc : (pages a).create with _ | create
      · exact ⟨_, do_switch_page_no_create pages w a true _ hc, hcap1,
          Or.inr ⟨hdepth, some a, hp, hpop, rfl, Or.inl ⟨Or.inr ⟨a, rfl, hc⟩, rfl, rfl⟩⟩⟩
      · rcases ho : create w with _ | new_page
        · exact ⟨_, do_switch_page_failed pages w a create true _ hc ho (Or.inl rfl), hcap1,
            Or.inr ⟨hdepth, some a, hp, hpop, rfl, Or.inr (Or.inl ⟨a, rfl, rfl, rfl⟩)⟩⟩
        · exact ⟨_, do_switch_page_backward pages w a create new_page _ hc ho, hcap1,
            Or.inr ⟨hdepth, some a, hp, hpop, rfl,
              Or.inr (Or.inr ⟨a, create, new_page, rfl, hc, ho, rfl, rfl⟩)⟩⟩

/-! ## Calls traced by one public call -/

/-- The calls a public call can add to the trace: none, one failed `create`, or a successful
`create` followed by the hook registration and the transition. -/
theorem do_switch_page_trace (pages : Nat → PageInfo_t) (w : World) (p : PagePtr)
    (is_back : Bool) (s s2 : State) (h : do_switch_page pages w p is_back s = some s2) :
    s2.trace = s.trace ∨
    (∃ a, s2.trace = s.trace ++ [Event.create a none]) ∨
    (∃ a new_page, s2.trace = s.trace ++ [Event.create a (some new_page),
      Event.lv_obj_add_event_cb new_page (some a), Event.lv_scr_load_anim new_page true]) := by
  rcases do_switch_page_cases pages w p is_back s with h1 | ⟨a, _, h1⟩ | ⟨a, o, _, _, h1⟩ |
    ⟨a, o, _, _, _, h1⟩
  · rw [h1] at h; cases h; exact Or.inl rfl
  · rw [h1] at h; cases h; exact Or.inr (Or.inl ⟨a, rfl⟩)
  · rw [h1] at h; cases h; exact Or.inr (Or.inr ⟨a, o, rfl⟩)
  · obtain ⟨s3, hpush, htrace, _⟩ := push_history_frame (some a) (afterLoad s a o)
    rw [h1, hpush] at h; cases h
    exact Or.inr (Or.inr ⟨a, o, htrace⟩)

theorem step_trace (pages : Nat → PageInfo_t) (op : Op) (s s2 : State)
    (h : step pages op s = some s2) :
    s2.trace = s.trace ∨
    (∃ a, s2.trace = s.trace ++ [Event.create a none]) ∨
    (∃ a new_page, s2.trace = s.trace ++ [Event.create a (some new_page),
      Event.lv_obj_add_event_cb new_page (some a), Event.lv_scr_load_anim new_page true]) := by
  cases op with
  | init =>
    simp only [step, Option.some.injEq] at h
    subst h
    exact Or.inl rfl
  | switch_page w p => exact do_switch_page_trace pages w p false s s2 h
  | back w =>
    simp only [step, screen_manager_back] at h
    split at h
    · obtain ⟨p, _, hp⟩ := Option.bind_eq_some.mp h
      have h3 := do_switch_page_trace pages w p true _ s2 hp
      exact h3
    · cases h; exact Or.inl rfl

/-! ## Invariants of the reachable states -/

theorem safe_init (pages : Nat → PageInfo_t) (s : State) : Safe pages (screen_manager_init s) := by
  refine ⟨Nat.zero_le _, ?_⟩
  intro p hp
  rw [history_init] at hp
  cases hp

theorem safe_switch_page (pages : Nat → PageInfo_t) (w : World) (p : PagePtr) (s : State)
    (hs : Safe pages s) :
    ∃ s2, screen_manager_switch_page pages w p s = some s2 ∧ Safe pages s2 := by
  obtain ⟨hcap, hvalid⟩ := hs
  obtain ⟨s2, h2, hcap2, hcase⟩ := switch_page_effect pages w p s hcap
  refine ⟨s2, h2, hcap2, ?_⟩
  rcases hcase with h | ⟨a, h⟩ | ⟨a, create, o, _, hc, _, _, _, _, hhist⟩
  · rw [h]; exact hvalid
  · rw [h]; exact hvalid
  · intro q hq
    rw [hhist, List.mem_append] at hq
    rcases hq with hq | hq
    · apply hvalid
      split at hq
      · exact hq
      · exact List.mem_of_mem_tail hq
    · rw [List.mem_singleton] at hq
      exact ⟨a, create, hq, hc⟩

theorem safe_back (pages : Nat → PageInfo_t) (w : World) (s : State) (hs : Safe pages s) :
    ∃ s2, screen_manager_back pages w s = some s2 ∧ Safe pages s2 := by
  obtain ⟨hcap, hvalid⟩ := hs
  obtain ⟨s2, h2, hcap2, hcase⟩ := back_effect pages w s hcap
  refine ⟨s2, h2, hcap2, ?_⟩
  rcases hcase with ⟨_, h⟩ | ⟨_, p, _, hhist, _, _⟩
  · rw [h]; exact hvalid
  · intro q hq
    rw [hhist] at hq
    exact hvalid q (List.mem_of_mem_dropLast hq)

theorem safe_step (pages : Nat → PageInfo_t) (op : Op) (s : State) (hs : Safe pages s) :
    ∃ s2, step pages op s = some s2 ∧ Safe pages s2 := by
  cases op with
  | init => exact ⟨_, rfl, safe_init pages s⟩
  | switch_page w p => exact safe_switch_page pages w p s hs
  | back w => exact safe_back pages w s hs

theorem safe_run (pages : Nat → PageInfo_t) (ops : List Op) (s : State) (hs : Safe pages s) :
    ∃ s2, run pages ops s = some s2 ∧ Safe pages s2 := by
  induction ops generalizing s with
  | nil => exact ⟨s, rfl, hs⟩
  | cons op ops ih =>
    obtain ⟨s1, h1, hs1⟩ := safe_step pages op s hs
    obtain ⟨s2, h2, hs2⟩ := ih s1 hs1
    exact ⟨s2, by simp [run, h1, h2], hs2⟩

/-- The entry `back()` reads in a safe state is a descriptor with a `create`. -/
theorem safe_entry_below_top (pages : Nat → PageInfo_t) (s : State) (hs : Safe pages s)
    (hdepth : 2 ≤ s.g_history_top) :
    ∃ a create, (history s)[s.g_history_top - 2]? = some (some a) ∧
      (pages a).create = some create := by
  obtain ⟨p, hp⟩ := history_entry_below_top s hdepth hs.1
  obtain ⟨a, create, hpa, hc⟩ := hs.2 p (List.getElem?_mem hp)
  exact ⟨a, create, by rw [hp, hpa], hc⟩

theorem failedCreates_append (t u : List Event) :
    failedCreates (t ++ u) = failedCreates t ++ failedCreates u := by
  simp [failedCreates]

/-- A public call never removes a failed creation from the trace. -/
theorem step_failed_mono (pages : Nat → PageInfo_t) (op : Op) (s s2 : State)
    (h : step pages op s = some s2) :
    (failedCreates s.trace).length ≤ (failedCreates s2.trace).length := by
  rcases step_trace pages op s s2 h with h1 | ⟨a, h1⟩ | ⟨a, o, h1⟩
  · rw [h1]
  · rw [h1, failedCreates_append]; simp
  · rw [h1, failedCreates_append]; simp

theorem run_failed_mono (pages : Nat → PageInfo_t) (ops : List Op) (s s2 : State)
    (h : run pages ops s = some s2) :
    (failedCreates s.trace).length ≤ (failedCreates s2.trace).length := by
  induction ops generalizing s with
  | nil =>
    simp only [run, Option.some.injEq] at h
    subst h
    exact Nat.le_refl _
  | cons op ops ih =>
    simp only [run] at h
    obtain ⟨s1, h1, h2⟩ := Option.bind_eq_some.mp h
    exact Nat.le_trans (step_failed_mono pages op s s1 h1) (ih s1 h2)

theorem tidy_init (pages : Nat → PageInfo_t) (s : State) : Tidy pages (screen_manager_init s) := by
  refine ⟨safe_init pages s, ?_, ?_⟩
  · rw [history_init]; rfl
  · rw [history_init]; exact List.chain'_nil

/-- In a tidy state the last entry of the history, when there is one, is the active one. -/
theorem tidy_last (pages : Nat → PageInfo_t) (s : State) (ht : Tidy pages s) (x : PagePtr)
    (hx : (history s).getLast? = some x) : x = s.g_current_page_info := by
  have h := ht.2.1
  rw [hx] at h
  exact h.symm

theorem tidy_switch_page (pages : Nat → PageInfo_t) (w : World) (p : PagePtr) (s : State)
    (ht : Tidy pages s) :
    ∃ s2, screen_manager_switch_page pages w p s = some s2 ∧ Tidy pages s2 := by
  obtain ⟨s2, h2, hsafe2⟩ := safe_switch_page pages w p s ht.1
  obtain ⟨s3, h3, _, hcase⟩ := switch_page_effect pages w p s ht.1.1
  rw [h2] at h3
  cases h3
  refine ⟨s2, h2, ?_⟩
  rcases hcase with h | ⟨a, h⟩ | ⟨a, create, o, _, _, _, hactive, hcur, _, hhist⟩
  · rw [h]; exact ht
  · rw [h]; exact ht
  · refine ⟨hsafe2, ?_, ?_⟩
    · rw [hhist, hcur, List.getLast?_concat]; rfl
    · rw [hhist]
      have hlast : ∀ x, (history s).getLast? = some x → x ≠ some a := by
        intro x hx hxa
        exact hactive ((tidy_last pages s ht x hx).symm.trans hxa)
      split
      · refine List.Chain'.append ht.2.2 (List.chain'_singleton _) ?_
        intro x hx y hy
        simp only [List.head?_cons, Option.mem_def, Option.some.injEq] at hy
        subst hy
        exact hlast x hx
      · refine List.Chain'.append ht.2.2.tail (List.chain'_singleton _) ?_
        intro x hx y hy
        simp only [List.head?_cons, Option.mem_def, Option.some.injEq] at hy
        subst hy
        rw [Option.mem_def, List.getLast?_tail] at hx
        split at hx
        · cases hx
        · exact hlast x hx

theorem tidy_back (pages : Nat → PageInfo_t) (w : World) (s : State) (ht : Tidy pages s) :
    ∃ s2, screen_manager_back pages w s = some s2 ∧
      ((failedCreates s2.trace).length = (failedCreates s.trace).length → Tidy pages s2) := by
  obtain ⟨s2, h2, hsafe2⟩ := safe_back pages w s ht.1
  obtain ⟨s3, h3, _, hcase⟩ := back_effect pages w s ht.1.1
  rw [h2] at h3
  cases h3
  refine ⟨s2, h2, ?_⟩
  intro hfail
  rcases hcase with ⟨_, h⟩ | ⟨hdepth, p, hp, hhist, _, hsub⟩
  · rw [h]; exact ht
  · obtain ⟨b, createb, hpb, hcb⟩ := safe_entry_below_top pages s ht.1 hdepth
    rw [hp] at hpb
    cases hpb
    rcases hsub with ⟨hbad, _, _⟩ | ⟨a, _, _, htrace⟩ | ⟨a, create, o, hpa, _, _, hcur, _⟩
    · rcases hbad with hnull | ⟨a, hpa, hca⟩
      · cases hnull
      · cases hpa
        rw [hcb] at hca
        cases hca
    · rw [htrace, failedCreates_append] at hfail
      simp [failedCreates] at hfail
    · cases hpa
      have hlen : (history s).length = s.g_history_top := history_length s ht.1.1
      refine ⟨hsafe2, ?_, ?_⟩
      · rw [hhist, hcur, List.getLast?_dropLast, hlen, if_neg (by omega), hp]
        rfl
      · rw [hhist, List.dropLast_eq_take]
        exact ht.2.2.take _

theorem tidy_run (pages : Nat → PageInfo_t) (ops : List Op) (s s2 : State)
    (ht : Tidy pages s) (hrun : run pages ops s = some s2)
    (hfail : (failedCreates s2.trace).length = (failedCreates s.trace).length) :
    Tidy pages s2 := by
  induction ops generalizing s with
  | nil =>
    simp only [run, Option.some.injEq] at hrun
    subst hrun
    exact ht
  | cons op ops ih =>
    simp only [run] at hrun
    obtain ⟨s1, h1, hrest⟩ := Option.bind_eq_some.mp hrun
    have hm1 := step_failed_mono pages op s s1 h1
    have hm2 := run_failed_mono pages ops s1 s2 hrest
    have ht1 : Tidy pages s1 := by
      cases op with
      | init =>
        simp only [step, Option.some.injEq] at h1
        subst h1
        exact tidy_init pages s
      | switch_page w p =>
        obtain ⟨s3, h3, ht3⟩ := tidy_switch_page pages w p s ht
        have h4 : some s3 = some s1 := h3.symm.trans h1
        cases h4
        exact ht3
      | back w =>
        obtain ⟨s3, h3, ht3⟩ := tidy_back pages w s ht
        have h4 : some s3 = some s1 := h3.symm.trans h1
        cases h4
        exact ht3 (by omega)
    exact ih s1 ht1 hrest (by omega)

/-- States reached from `init()` without a failed creation are tidy. -/
theorem tidy_reachable (pages : Nat → PageInfo_t) (s0 : State) (ops : List Op) (s : State)
    (hrun : run pages (Op.init :: ops) s0 = some s)
    (hok : failedCreates s.trace = failedCreates s0.trace) : Tidy pages s := by
  have hrest : run pages ops (screen_manager_init s0) = some s := by
    simpa [run, step] using hrun
  exact tidy_run pages ops (screen_manager_init s0) s (tidy_init pages s0) hrest
    (by rw [hok]; rfl)

theorem chain_neighbours_differ (l : List PagePtr) (h : l.Chain' (fun p q => p ≠ q))
    (i : Nat) (hi : i + 1 < l.length) : l[i]? ≠ l[i + 1]? := by
  rw [List.chain'_iff_get] at h
  have h1 := h i (by omega)
  have hi0 : i < l.length := by omega
  rw [List.getElem?_eq_getElem hi0, List.getElem?_eq_getElem hi]
  intro heq
  apply h1
  simpa using heq

/-- In a tidy state a `back()` that triggers a transition activates a descriptor different
from the one that was active. -/
theorem tidy_back_changes_active (pages : Nat → PageInfo_t) (w : World) (s s2 : State)
    (ht : Tidy pages s) (hback : screen_manager_back pages w s = some s2)
    (hmoved : transitions s2.trace ≠ transitions s.trace) :
    s2.g_current_page_info ≠ s.g_current_page_info := by
  obtain ⟨s3, h3, _, hcase⟩ := back_effect pages w s ht.1.1
  rw [hback] at h3
  cases h3
  rcases hcase with ⟨_, h⟩ | ⟨hdepth, p, hp, _, _, hsub⟩
  · rw [h] at hmoved; exact absurd rfl hmoved
  · rcases hsub with ⟨_, _, htrace⟩ | ⟨a, _, _, htrace⟩ | ⟨a, create, o, hpa, _, _, hcur, _⟩
    · rw [htrace] at hmoved; exact absurd rfl hmoved
    · rw [htrace, transitions_append] at hmoved
      simp [transitions] at hmoved
    · have hlen : (history s).length = s.g_history_top := history_length s ht.1.1
      have hdiff := chain_neighbours_differ (history s) ht.2.2 (s.g_history_top - 2)
        (by omega)
      have hidx : s.g_history_top - 2 + 1 = (history s).length - 1 := by omega
      have hlast : (history s)[s.g_history_top - 2 + 1]? = some s.g_current_page_info := by
        rw [hidx, ← List.getLast?_eq_getElem?]
        rcases hl : (history s).getLast? with _ | x
        · have hnil := List.getLast?_eq_none_iff.mp hl
          rw [hnil] at hlen
          simp at hlen
          omega
        · rw [tidy_last pages s ht x hl]
      rw [hp, hlast, hpa] at hdiff
      rw [hcur]
      intro heq
      exact hdiff (by rw [heq])

/-! ## Scenarios with descriptors that always create -/

theorem switch_page_valid (pages : Nat → PageInfo_t) (w : World) (a : Nat) (s : State)
    (hcap : s.g_history_top ≤ MAX_HISTORY_DEEP) (hv : AlwaysCreates pages a)
    (hactive : s.g_current_page_info ≠ some a) :
    ∃ s2, screen_manager_switch_page pages w (some a) s = some s2 ∧
      s2.g_history_top ≤ MAX_HISTORY_DEEP ∧
      s2.g_current_page_info = some a ∧
      history s2 = (if (history s).length < MAX_HISTORY_DEEP then history s
        else (history s).tail) ++ [some a] := by
  obtain ⟨create, hc, hall⟩ := hv
  obtain ⟨o, ho⟩ := hall w
  obtain ⟨s2, h2, hcap2, hcur, _, hhist⟩ :=
    switch_page_succeeds pages w a create o s hcap hc ho hactive
  rw [history_length s hcap]
  exact ⟨s2, h2, hcap2, hcur, hhist⟩

theorem back_valid (pages : Nat → PageInfo_t) (w : World) (a : Nat) (s : State)
    (hcap : s.g_history_top ≤ MAX_HISTORY_DEEP) (hdepth : 2 ≤ (history s).length)
    (hprev : (history s)[(history s).length - 2]? = some (some a))
    (hv : AlwaysCreates pages a) :
    ∃ s2, screen_manager_back pages w s = some s2 ∧
      s2.g_history_top ≤ MAX_HISTORY_DEEP ∧
      s2.g_current_page_info = some a ∧
      history s2 = (history s).dropLast := by
  obtain ⟨create, hc, hall⟩ := hv
  obtain ⟨o, ho⟩ := hall w
  rw [history_length s hcap] at hdepth hprev
  have hlen : s.g_history_top ≤ s.g_history_stack.cells.length := by
    rw [s.g_history_stack.size_eq]; exact hcap
  refine ⟨afterLoad { s with g_history_top := s.g_history_top - 1 } a o, ?_, ?_, rfl, ?_⟩
  · rw [screen_manager_back_reads pages w s (some a) hdepth hprev]
    exact do_switch_page_backward pages w a create o _ hc ho
  · show s.g_history_top - 1 ≤ MAX_HISTORY_DEEP
    omega
  · exact take_pred_eq_dropLast _ _ hlen

/-! ## Provenance of the recorded entries -/

theorem createdSince_grow (n : Nat) (s s2 : State) (x : List Event) (h : CreatedSince n s)
    (htr : s2.trace = s.trace ++ x)
    (hsub : ∀ p ∈ history s2,
      p ∈ history s ∨ ∃ a o, p = some a ∧ Event.create a (some o) ∈ x) :
    CreatedSince n s2 := by
  obtain ⟨hn, hold⟩ := h
  have hdrop : List.drop n s2.trace = List.drop n s.trace ++ x := by
    rw [htr, List.drop_append_of_le_length hn]
  refine ⟨by rw [htr, List.length_append]; omega, ?_⟩
  intro p hp
  rw [hdrop]
  rcases hsub p hp with hmem | ⟨a, o, hpa, hx⟩
  · obtain ⟨a, o, hpa, hev⟩ := hold p hmem
    exact ⟨a, o, hpa, List.mem_append_left _ hev⟩
  · exact ⟨a, o, hpa, List.mem_append_right _ hx⟩

theorem createdSince_step (pages : Nat → PageInfo_t) (n : Nat) (op : Op) (s : State)
    (hs : Safe pages s) (h : CreatedSince n s) :
    ∃ s2, step pages op s = some s2 ∧ Safe pages s2 ∧ CreatedSince n s2 := by
  obtain ⟨s2, h2, hsafe2⟩ := safe_step pages op s hs
  refine ⟨s2, h2, hsafe2, ?_⟩
  cases op with
  | init =>
    simp only [step, Option.some.injEq] at h2
    subst h2
    refine ⟨h.1, ?_⟩
    intro p hp
    rw [history_init] at hp
    cases hp
  | switch_page w p =>
    obtain ⟨s3, h3, _, hcase⟩ := switch_page_effect pages w p s hs.1
    have h4 : some s3 = some s2 := h3.symm.trans h2
    cases h4
    rcases hcase with hsame | ⟨a, hfail⟩ | ⟨a, create, o, _, _, _, _, _, htrace, hhist⟩
    · rw [hsame]; exact h
    · refine createdSince_grow n s s2 [Event.create a none] h (by rw [hfail]) ?_
      intro q hq
      rw [hfail] at hq
      exact Or.inl hq
    · refine createdSince_grow n s s2 _ h htrace ?_
      intro q hq
      rw [hhist, List.mem_append] at hq
      rcases hq with hq | hq
      · left
        split at hq
        · exact hq
        · exact List.mem_of_mem_tail hq
      · rw [List.mem_singleton] at hq
        exact Or.inr ⟨a, o, hq, by simp⟩
  | back w =>
    obtain ⟨s3, h3, _, hcase⟩ := back_effect pages w s hs.1
    have h4 : some s3 = some s2 := h3.symm.trans h2
    cases h4
    rcases hcase with ⟨_, hsame⟩ | ⟨_, p, _, hhist, _, hsub⟩
    · rw [hsame]; exact h
    · have hgrow : ∀ x : List Event, s2.trace = s.trace ++ x → CreatedSince n s2 := by
        intro x hx
        refine createdSince_grow n s s2 x h hx ?_
        intro q hq
        rw [hhist] at hq
        exact Or.inl (List.mem_of_mem_dropLast hq)
      rcases hsub with ⟨_, _, htrace⟩ | ⟨a, _, _, htrace⟩ | ⟨a, create, o, _, _, _, _, htrace⟩
      · exact hgrow [] (by rw [htrace, List.append_nil])
      · exact hgrow _ htrace
      · exact hgrow _ htrace

theorem createdSince_run (pages : Nat → PageInfo_t) (n : Nat) (ops : List Op) (s : State)
    (hs : Safe pages s) (h : CreatedSince n s) :
    ∃ s2, run pages ops s = some s2 ∧ Safe pages s2 ∧ CreatedSince n s2 := by
  induction ops generalizing s with
  | nil => exact ⟨s, rfl, hs, h⟩
  | cons op ops ih =>
    obtain ⟨s1, h1, hs1, hc1⟩ := createdSince_step pages n op s hs h
    obtain ⟨s2, h2, hs2, hc2⟩ := ih s1 hs1 hc1
    exact ⟨s2, by simp [run, h1, h2], hs2, hc2⟩

/-! ## Claims -/

/-- C1. `switch_to` with spare capacity: when the history length is below `MAX_HISTORY_DEEP`
and `D` (non-null, with a `create`) is not the active descriptor and its `create()` returns
an object, the call returns, `create` is called exactly once (on `D`, followed by one hook
registration and one transition), the active reference becomes `D`, and the history is the
old history with `D` appended (length plus one, earlier entries unchanged). -/
theorem switch_page_spare_appends (pages : Nat → PageInfo_t) (w : World) (a : Nat)
    (create : World → Option Obj) (new_page : Obj) (s : State)
    (hspare : s.g_history_top < MAX_HISTORY_DEEP)
    (hcreate : (pages a).create = some create)
    (hobj : create w = some new_page)
    (hactive : s.g_current_page_info ≠ some a) :
    ∃ s2, screen_manager_switch_page pages w (some a) s = some s2 ∧
      s2.g_current_page_info = some a ∧
      history s2 = history s ++ [some a] ∧
      (history s2).length = (history s).length + 1 ∧
      s2.g_history_top = s.g_history_top + 1 ∧
      createCalls s2.trace = createCalls s.trace ++ [a] ∧
      s2.trace = s.trace ++ [Event.create a (some new_page),
        Event.lv_obj_add_event_cb new_page (some a), Event.lv_scr_load_anim new_page true] := by
  obtain ⟨stk, hpush, hcells⟩ := push_history_spare (some a) (afterLoad s a new_page) hspare
  have hlen : s.g_history_top < s.g_history_stack.cells.length := by
    rw [s.g_history_stack.size_eq]; exact hspare
  have hhist : List.take (s.g_history_top + 1) stk.cells = history s ++ [some a] := by
    rw [hcells]
    exact take_set_succ s.g_history_stack.cells s.g_history_top (some a) hlen
  refine ⟨{ afterLoad s a new_page with
    g_history_stack := stk, g_history_top := s.g_history_top + 1 }, ?_, ?_, ?_, ?_, ?_, ?_, ?_⟩
  · unfold screen_manager_switch_page
    rw [do_switch_page_forward pages w a create new_page s hcreate hobj hactive]
    exact hpush
  · rfl
  · exact hhist
  · show (List.take (s.g_history_top + 1) stk.cells).length = _
    rw [hhist]; simp
  · rfl
  · show createCalls (s.trace ++ _) = _
    rw [createCalls_append]; rfl
  · rfl

/-- Witness for C1: descriptor 7 is switched to from a state holding three entries. -/
theorem switch_page_spare_appends_witness :
    ∃ s2, screen_manager_switch_page pagesEx 1 (some 7) stEx3 = some s2 ∧
      s2.g_current_page_info = some 7 ∧
      history s2 = history stEx3 ++ [some 7] ∧
      (history s2).length = (history stEx3).length + 1 ∧
      s2.g_history_top = stEx3.g_history_top + 1 ∧
      createCalls s2.trace = createCalls stEx3.trace ++ [7] ∧
      s2.trace = stEx3.trace ++ [Event.create 7 (some 701),
        Event.lv_obj_add_event_cb 701 (some 7), Event.lv_scr_load_anim 701 true] :=
  switch_page_spare_appends pagesEx 1 7 (fun w => if w = 0 then none else some (100 * 7 + w))
    701 stEx3 (by decide) (by simp [pagesEx]) (by decide) (by decide)

/-- C2. `switch_to` on a full history: when the history length equals `MAX_HISTORY_DEEP` and
`D` is valid, not active, and its `create()` succeeds, the call returns with the history equal
to the old one without its first entry and with `D` appended; the length stays at the
capacity and the active reference is `D`. -/
theorem switch_page_full_evicts_oldest (pages : Nat → PageInfo_t) (w : World) (a : Nat)
    (create : World → Option Obj) (new_page : Obj) (s : State)
    (hfull : s.g_history_top = MAX_HISTORY_DEEP)
    (hcreate : (pages a).create = some create)
    (hobj : create w = some new_page)
    (hactive : s.g_current_page_info ≠ some a) :
    ∃ s2, screen_manager_switch_page pages w (some a) s = some s2 ∧
      s2.g_current_page_info = some a ∧
      history s2 = (history s).tail ++ [some a] ∧
      (history s2).length = MAX_HISTORY_DEEP ∧
      s2.g_history_top = MAX_HISTORY_DEEP := by
  have hnot : ¬ (afterLoad s a new_page).g_history_top < MAX_HISTORY_DEEP := by
    show ¬ s.g_history_top < MAX_HISTORY_DEEP
    rw [hfull]; exact Nat.lt_irrefl _
  obtain ⟨stk, hpush, hcells⟩ := push_history_full (some a) (afterLoad s a new_page) hnot
  obtain ⟨c0, c1, c2, c3, c4, hc⟩ := cells_five s.g_history_stack
  have hcells2 : stk.cells = [c1, c2, c3, c4, some a] := by
    rw [hcells]; show s.g_history_stack.cells.tail ++ _ = _; rw [hc]; rfl
  have hhist : List.take s.g_history_top stk.cells = (history s).tail ++ [some a] := by
    unfold history
    rw [hcells2, hc, hfull]; rfl
  refine ⟨{ afterLoad s a new_page with g_history_stack := stk }, ?_, ?_, ?_, ?_, ?_⟩
  · unfold screen_manager_switch_page
    rw [do_switch_page_forward pages w a create new_page s hcreate hobj hactive]
    exact hpush
  · rfl
  · exact hhist
  · show (List.take s.g_history_top stk.cells).length = _
    rw [hcells2, hfull]; rfl
  · exact hfull

/-- Witness for C2: descriptor 11 is switched to from a full history. -/
theorem switch_page_full_evicts_oldest_witness :
    ∃ s2, screen_manager_switch_page pagesEx 1 (some 11) stExFull = some s2 ∧
      s2.g_current_page_info = some 11 ∧
      history s2 = (history stExFull).tail ++ [some 11] ∧
      (history s2).length = MAX_HISTORY_DEEP ∧
      s2.g_history_top = MAX_HISTORY_DEEP :=
  switch_page_full_evicts_oldest pagesEx 1 11
    (fun w => if w = 0 then none else some (100 * 11 + w)) 1101 stExFull
    (by decide) (by simp [pagesEx]) (by decide) (by decide)

/-- C3. Capacity invariant: from any prior state, `init()` followed by any finite sequence of
`init`, `switch_to` and `back` calls (any descriptors, any creation outcomes) runs to a state,
and in that state `g_history_top` is at most `MAX_HISTORY_DEEP`. -/
theorem history_top_never_exceeds_capacity (pages : Nat → PageInfo_t) (s0 : State)
    (ops : List Op) :
    ∃ s, run pages (Op.init :: ops) s0 = some s ∧ s.g_history_top ≤ MAX_HISTORY_DEEP := by
  obtain ⟨s, hrun, hb⟩ := run_bounded pages ops (screen_manager_init s0) (Nat.zero_le _)
  exact ⟨s, by simp [run, step, hrun], hb⟩

/-- C4. `back()` with at least two entries: when the history holds `n ≥ 2` entries and
`create()` of the entry `h[n-2]` below the top succeeds, the call returns with the active
reference equal to `h[n-2]`, the history equal to `h[0..n-2]` (the old history without its
last entry, length `n - 1`, nothing pushed), and exactly one `create` call, on `h[n-2]`. -/
theorem back_restores_previous (pages : Nat → PageInfo_t) (w : World) (a : Nat)
    (create : World → Option Obj) (new_page : Obj) (s : State)
    (hdepth : 2 ≤ s.g_history_top)
    (hcap : s.g_history_top ≤ MAX_HISTORY_DEEP)
    (hprev : (history s)[s.g_history_top - 2]? = some (some a))
    (hcreate : (pages a).create = some create)
    (hobj : create w = some new_page) :
    ∃ s2, screen_manager_back pages w s = some s2 ∧
      s2.g_current_page_info = some a ∧
      history s2 = (history s).dropLast ∧
      (history s2).length = s.g_history_top - 1 ∧
      s2.g_history_top = s.g_history_top - 1 ∧
      createCalls s2.trace = createCalls s.trace ++ [a] ∧
      s2.trace = s.trace ++ [Event.create a (some new_page),
        Event.lv_obj_add_event_cb new_page (some a), Event.lv_scr_load_anim new_page true] := by
  have hlen : s.g_history_top ≤ s.g_history_stack.cells.length := by
    rw [s.g_history_stack.size_eq]; exact hcap
  have hhist : List.take (s.g_history_top - 1) s.g_history_stack.cells = (history s).dropLast :=
    take_pred_eq_dropLast _ _ hlen
  refine ⟨afterLoad { s with g_history_top := s.g_history_top - 1 } a new_page,
    ?_, ?_, ?_, ?_, ?_, ?_, ?_⟩
  · rw [screen_manager_back_reads pages w s (some a) hdepth hprev]
    exact do_switch_page_backward pages w a create new_page _ hcreate hobj
  · rfl
  · exact hhist
  · show (List.take (s.g_history_top - 1) s.g_history_stack.cells).length = _
    rw [List.length_take]; omega
  · rfl
  · show createCalls (s.trace ++ _) = _
    rw [createCalls_append]; rfl
  · rfl

/-- Witness for C4: from history `[1, 3, 5]`, `back()` re-creates descriptor 3. -/
theorem back_restores_previous_witness :
    ∃ s2, screen_manager_back pagesEx 1 stEx3 = some s2 ∧
      s2.g_current_page_info = some 3 ∧
      history s2 = (history stEx3).dropLast ∧
      (history s2).length = stEx3.g_history_top - 1 ∧
      s2.g_history_top = stEx3.g_history_top - 1 ∧
      createCalls s2.trace = createCalls stEx3.trace ++ [3] ∧
      s2.trace = stEx3.trace ++ [Event.create 3 (some 301),
        Event.lv_obj_add_event_cb 301 (some 3), Event.lv_scr_load_anim 301 true] :=
  back_restores_previous pagesEx 1 3 (fun w => if w = 0 then none else some (100 * 3 + w))
    301 stEx3 (by decide) (by decide) (by decide) (by simp [pagesEx]) (by decide)

/-- C5. `back()` with fewer than two entries recorded returns the state it was given: the
active reference, the history and the call trace (creations, hook registrations, transitions)
are all unchanged. -/
theorem back_short_history_noop (pages : Nat → PageInfo_t) (w : World) (s : State)
    (hshort : s.g_history_top < 2) :
    screen_manager_back pages w s = some s := by
  have hle : ¬ s.g_history_top > 1 := by omega
  simp [screen_manager_back, hle]

/-- Witness for C5: one entry recorded. -/
theorem back_short_history_noop_witness :
    screen_manager_back pagesEx 1
      { stEx3 with g_history_top := 1, g_current_page_info := some 1 }
      = some { stEx3 with g_history_top := 1, g_current_page_info := some 1 } :=
  back_short_history_noop pagesEx 1
    { stEx3 with g_history_top := 1, g_current_page_info := some 1 } (by decide)

/-- C6. Failure atomicity of `switch_to`: if the descriptor is null, or its `create` is null,
or `create()` returns null, the call returns with the active reference, the history array and
the history length as before, no hook registered and no transition triggered; in the first
two cases the call trace is unchanged, so `create` is not called. -/
theorem switch_page_failure_keeps_state (pages : Nat → PageInfo_t) (w : World) (p : PagePtr)
    (s : State)
    (hfail : p = none ∨ (∃ a, p = some a ∧ (pages a).create = none) ∨
      (∃ a create, p = some a ∧ (pages a).create = some create ∧ create w = none)) :
    ∃ s2, screen_manager_switch_page pages w p s = some s2 ∧
      s2.g_current_page_info = s.g_current_page_info ∧
      s2.g_history_stack = s.g_history_stack ∧
      s2.g_history_top = s.g_history_top ∧
      history s2 = history s ∧
      hooks s2.trace = hooks s.trace ∧
      transitions s2.trace = transitions s.trace ∧
      ((p = none ∨ ∃ a, p = some a ∧ (pages a).create = none) → s2.trace = s.trace) := by
  unfold screen_manager_switch_page
  rcases hfail with hnull | ⟨a, hp, hc⟩ | ⟨a, create, hp, hc, ho⟩
  · subst hnull
    exact ⟨s, rfl, rfl, rfl, rfl, rfl, rfl, rfl, fun _ => rfl⟩
  · subst hp
    exact ⟨s, do_switch_page_no_create pages w a false s hc, rfl, rfl, rfl, rfl, rfl, rfl,
      fun _ => rfl⟩
  · subst hp
    by_cases hactive : s.g_current_page_info = some a
    · exact ⟨s, do_switch_page_active pages w a s hactive, rfl, rfl, rfl, rfl, rfl, rfl,
        fun _ => rfl⟩
    · refine ⟨_, do_switch_page_failed pages w a create false s hc ho (Or.inr hactive),
        rfl, rfl, rfl, rfl, ?_, ?_, ?_⟩
      · show hooks (s.trace ++ _) = _
        rw [hooks_append]; simp [hooks]
      · show transitions (s.trace ++ _) = _
        rw [transitions_append]; simp [transitions]
      · intro h
        rcases h with h | ⟨b, hb, hcb⟩
        · cases h
        · cases hb
          rw [hc] at hcb
          cases hcb

/-- Witness for C6: descriptor 7 is valid but its `create()` returns null under condition 0. -/
theorem switch_page_failure_keeps_state_witness :
    ∃ s2, screen_manager_switch_page pagesEx 0 (some 7) stEx3 = some s2 ∧
      s2.g_current_page_info = stEx3.g_current_page_info ∧
      s2.g_history_stack = stEx3.g_history_stack ∧
      s2.g_history_top = stEx3.g_history_top ∧
      history s2 = history stEx3 ∧
      hooks s2.trace = hooks stEx3.trace ∧
      transitions s2.trace = transitions stEx3.trace ∧
      (((some 7 : PagePtr) = none ∨ ∃ a, (some 7 : PagePtr) = some a ∧ (pagesEx a).create = none)
        → s2.trace = stEx3.trace) :=
  switch_page_failure_keeps_state pagesEx 0 (some 7) stEx3
    (Or.inr (Or.inr ⟨7, fun w => if w = 0 then none else some (100 * 7 + w), rfl,
      by simp [pagesEx], by decide⟩))

/-- C7. `switch_to` on the active descriptor returns the state it was given (no `create` call,
active reference and history unchanged); and `init`, `switch_to(A)`, `switch_to(A)`, with `A`
valid and its `create()` succeeding, runs to a state with active reference `A`, history `[A]`
and exactly one `create` call (on `A`) added to the trace. -/
theorem switch_page_active_idempotent (pages : Nat → PageInfo_t) (w w2 : World) (a : Nat)
    (create : World → Option Obj) (new_page : Obj) (s0 : State)
    (hcreate : (pages a).create = some create)
    (hobj : create w = some new_page) :
    (∀ s : State, ∀ w1 : World,
      screen_manager_switch_page pages w1 s.g_current_page_info s = some s) ∧
    ∃ s2, run pages [Op.init, Op.switch_page w (some a), Op.switch_page w2 (some a)] s0
        = some s2 ∧
      s2.g_current_page_info = some a ∧
      history s2 = [some a] ∧
      createCalls s2.trace = createCalls s0.trace ++ [a] := by
  have hidem : ∀ s : State, ∀ w1 : World,
      screen_manager_switch_page pages w1 s.g_current_page_info s = some s := by
    intro s w1
    unfold screen_manager_switch_page
    rcases hcur : s.g_current_page_info with _ | b
    · rfl
    · exact do_switch_page_active pages w1 b s hcur
  refine ⟨hidem, ?_⟩
  obtain ⟨s1, h1, _, hcur1, htrace1, hhist1⟩ :=
    switch_page_succeeds pages w a create new_page (screen_manager_init s0)
      (Nat.zero_le _) hcreate hobj (by simp [screen_manager_init])
  have h2 : screen_manager_switch_page pages w2 (some a) s1 = some s1 := by
    have h := hidem s1 w2
    rw [hcur1] at h
    exact h
  have hspare : (screen_manager_init s0).g_history_top < MAX_HISTORY_DEEP := by
    show 0 < MAX_HISTORY_DEEP; decide
  refine ⟨s1, ?_, hcur1, ?_, ?_⟩
  · simp [run, step, h1, h2]
  · rw [hhist1, if_pos hspare, history_init]; rfl
  · rw [htrace1]
    show createCalls (s0.trace ++ _) = _
    rw [createCalls_append]; rfl

/-- Witness for C7: descriptor 1, created under condition 1, from the boot state. -/
theorem switch_page_active_idempotent_witness :
    (∀ s : State, ∀ w1 : World,
      screen_manager_switch_page pagesEx w1 s.g_current_page_info s = some s) ∧
    ∃ s2, run pagesEx [Op.init, Op.switch_page 1 (some 1), Op.switch_page 4 (some 1)] boot
        = some s2 ∧
      s2.g_current_page_info = some 1 ∧
      history s2 = [some 1] ∧
      createCalls s2.trace = createCalls boot.trace ++ [1] :=
  switch_page_active_idempotent pagesEx 1 4 1
    (fun w => if w = 0 then none else some (100 * 1 + w)) 101 boot
    (by simp [pagesEx]) (by decide)

/-- C8. `back()` with a failing creation: when the history holds `n ≥ 2` entries and
`create()` of the entry below the top returns null, the call returns with the history length
`n - 1` (the top entry popped, not restored), the active reference unchanged, no hook
registered and no transition triggered. -/
theorem back_failed_creation_pops (pages : Nat → PageInfo_t) (w : World) (a : Nat)
    (create : World → Option Obj) (s : State)
    (hdepth : 2 ≤ s.g_history_top)
    (hcap : s.g_history_top ≤ MAX_HISTORY_DEEP)
    (hprev : (history s)[s.g_history_top - 2]? = some (some a))
    (hcreate : (pages a).create = some create)
    (hobj : create w = none) :
    ∃ s2, screen_manager_back pages w s = some s2 ∧
      s2.g_history_top = s.g_history_top - 1 ∧
      (history s2).length = s.g_history_top - 1 ∧
      history s2 = (history s).dropLast ∧
      s2.g_current_page_info = s.g_current_page_info ∧
      hooks s2.trace = hooks s.trace ∧
      transitions s2.trace = transitions s.trace ∧
      s2.trace = s.trace ++ [Event.create a none] := by
  have hlen : s.g_history_top ≤ s.g_history_stack.cells.length := by
    rw [s.g_history_stack.size_eq]; exact hcap
  refine ⟨{ s with g_history_top := s.g_history_top - 1,
                   trace := s.trace ++ [Event.create a none] }, ?_, rfl, ?_, ?_, rfl, ?_, ?_, rfl⟩
  · rw [screen_manager_back_reads pages w s (some a) hdepth hprev]
    exact do_switch_page_failed pages w a create true _ hcreate hobj (Or.inl rfl)
  · show (List.take (s.g_history_top - 1) s.g_history_stack.cells).length = _
    rw [List.length_take]; omega
  · exact take_pred_eq_dropLast _ _ hlen
  · show hooks (s.trace ++ _) = _
    rw [hooks_append]; simp [hooks]
  · show transitions (s.trace ++ _) = _
    rw [transitions_append]; simp [transitions]

/-- Witness for C8: from history `[1, 3, 5]` with 5 active, `create()` of 3 fails. -/
theorem back_failed_creation_pops_witness :
    ∃ s2, screen_manager_back pagesEx 0 stEx3 = some s2 ∧
      s2.g_history_top = stEx3.g_history_top - 1 ∧
      (history s2).length = stEx3.g_history_top - 1 ∧
      history s2 = (history stEx3).dropLast ∧
      s2.g_current_page_info = stEx3.g_current_page_info ∧
      hooks s2.trace = hooks stEx3.trace ∧
      transitions s2.trace = transitions stEx3.trace ∧
      s2.trace = stEx3.trace ++ [Event.create 3 none] :=
  back_failed_creation_pops pagesEx 0 3 (fun w => if w = 0 then none else some (100 * 3 + w))
    stEx3 (by decide) (by decide) (by decide) (by simp [pagesEx]) (by decide)

/-- C9. `init()` resets the controller: from any prior state the active reference becomes null
and the history length 0 (empty history), and a `back()` issued directly afterwards returns
the state unchanged, so it makes no `create` call. -/
theorem init_resets_and_back_is_noop (pages : Nat → PageInfo_t) (w : World) (s : State) :
    (screen_manager_init s).g_current_page_info = none ∧
    (screen_manager_init s).g_history_top = 0 ∧
    history (screen_manager_init s) = [] ∧
    screen_manager_back pages w (screen_manager_init s) = some (screen_manager_init s) := by
  refine ⟨rfl, rfl, ?_, ?_⟩
  · simp [history, screen_manager_init]
  · simp [screen_manager_back, screen_manager_init]

/-- C10, as stated, fails. After `init()` alone no page object has been created, and after
`init()` followed by `switch_to` of the valid descriptor 1 whose `create()` returns null there
is none either: in both situations the set of page objects created by the controller and not
yet released is empty, not a singleton. -/
theorem single_live_page_counterexample :
    (run pagesEx (Op.init :: switchCalls []) boot).map livePages = some [] ∧
    (pagesEx 1).create.isSome = true ∧
    (run pagesEx (Op.init :: switchCalls [(0, some 1)]) boot).map livePages = some [] := by
  decide

/-- C10, amended. After `init()` at program start and any sequence of `switch_to` calls, the
page objects created by the controller and not yet released for deletion are exactly the
displayed page: at most one object, and exactly one precisely when the active reference is
non-null, that is, once a `switch_to` has succeeded. -/
theorem at_most_one_live_page (pages : Nat → PageInfo_t) (calls : List (World × PagePtr)) :
    ∃ s, run pages (Op.init :: switchCalls calls) boot = some s ∧
      livePages s = (displayedPage s).toList ∧
      (livePages s).length ≤ 1 ∧
      ((livePages s).length = 1 ↔ s.g_current_page_info ≠ none) := by
  have hinit : LifetimeInv (screen_manager_init boot) := by
    unfold LifetimeInv livePages displayedPage
    simp [screen_manager_init, boot, toolkitAfter]
  obtain ⟨s, hrun, hlive, hcur⟩ :=
    lifetime_switchCalls pages calls (screen_manager_init boot) hinit
  refine ⟨s, by simp [run, step, hrun], hlive, ?_, ?_⟩
  · rw [hlive]
    cases displayedPage s <;> simp
  · rw [hlive, Ne, ← hcur]
    cases displayedPage s <;> simp

/-- C11. Cleanup pairing: the calls a `switch_to` or `back` adds to the trace contain exactly
one hook registration per successful creation (at most one), on the created object and with
the descriptor whose `create()` produced it, and no `deinit` call; when such a hook fires for
its object, `generic_delete_event_cb` calls that descriptor's `deinit` exactly once with the
object, and makes no call when the descriptor has no `deinit`. -/
theorem cleanup_hook_pairs_with_creation (pages : Nat → PageInfo_t) (op : Op) (s s2 : State)
    (hstep : step pages op s = some s2) :
    ∃ new, s2.trace = s.trace ++ new ∧
      hooks new = creations new ∧
      (creations new).length ≤ 1 ∧
      deinitCalls new = [] ∧
      ∀ o p, (o, p) ∈ hooks new → ∃ a, p = some a ∧
        generic_delete_event_cb pages p o
          = ((pages a).deinit.map fun fn => Event.deinit fn o).toList := by
  rcases step_trace pages op s s2 hstep with h | ⟨a, h⟩ | ⟨a, o, h⟩
  · refine ⟨[], by simpa using h, rfl, Nat.zero_le _, rfl, ?_⟩
    intro o p hmem
    simp [hooks] at hmem
  · refine ⟨_, h, rfl, Nat.zero_le _, rfl, ?_⟩
    intro o p hmem
    simp [hooks] at hmem
  · refine ⟨_, h, rfl, Nat.le_refl _, rfl, ?_⟩
    intro o2 p hmem
    simp only [hooks, List.filterMap_cons, List.filterMap_nil, List.mem_singleton,
      Prod.mk.injEq] at hmem
    obtain ⟨ho, hp⟩ := hmem
    subst ho hp
    refine ⟨a, rfl, ?_⟩
    rcases hd : (pages a).deinit with _ | fn <;> simp [generic_delete_event_cb, hd]

/-- Witness for C11: `back()` from history `[1, 3, 5]` re-creates descriptor 3 as object 301;
the hook registered on 301 carries descriptor 3, whose `deinit` has label 3. -/
theorem cleanup_hook_pairs_with_creation_witness :
    ∃ new, (afterLoad { stEx3 with g_history_top := 2 } 3 301).trace = stEx3.trace ++ new ∧
      hooks new = creations new ∧
      (creations new).length ≤ 1 ∧
      deinitCalls new = [] ∧
      ∀ o p, (o, p) ∈ hooks new → ∃ a, p = some a ∧
        generic_delete_event_cb pagesEx p o
          = ((pagesEx a).deinit.map fun fn => Event.deinit fn o).toList :=
  cleanup_hook_pairs_with_creation pagesEx (Op.back 1) stEx3
    (afterLoad { stEx3 with g_history_top := 2 } 3 301) (by decide)

/-- C12 fails on the code. In `init`, `switch_to(1)`, `switch_to(3)` the second switch calls
`create()` of descriptor 3 first and only then `lv_scr_load_anim`, the one call that hands the
current page (object 101) over for deletion: no destruction precedes the creation, and right
after that creation both page objects 101 and 301 are unreleased. -/
theorem switch_creates_before_releasing :
    (run pagesEx [Op.init, Op.switch_page 1 (some 1)] boot).map State.trace
      = some [Event.create 1 (some 101), Event.lv_obj_add_event_cb 101 (some 1),
          Event.lv_scr_load_anim 101 true] ∧
    (run pagesEx [Op.init, Op.switch_page 1 (some 1), Op.switch_page 1 (some 3)] boot).map
        State.trace
      = some ([Event.create 1 (some 101), Event.lv_obj_add_event_cb 101 (some 1),
          Event.lv_scr_load_anim 101 true] ++
         [Event.create 3 (some 301), Event.lv_obj_add_event_cb 301 (some 3),
          Event.lv_scr_load_anim 301 true]) ∧
    (toolkitAfter [Event.create 1 (some 101), Event.lv_obj_add_event_cb 101 (some 1),
        Event.lv_scr_load_anim 101 true, Event.create 3 (some 301)]).unreleased
      = [101, 301] ∧
    (toolkitAfter [Event.create 1 (some 101), Event.lv_obj_add_event_cb 101 (some 1),
        Event.lv_scr_load_anim 101 true, Event.create 3 (some 301),
        Event.lv_obj_add_event_cb 301 (some 3),
        Event.lv_scr_load_anim 301 true]).unreleased = [301] := by
  decide

/-- C13, as stated, fails. After `init`, `switch_to(1)`, `switch_to(3)` the history is
`[1, 3]`: its top entry is descriptor 3, the currently active one, while the descriptor that
was active immediately before it is 1. -/
theorem history_top_is_not_previous_page :
    (runPrev pagesEx [Op.init, Op.switch_page 1 (some 1), Op.switch_page 1 (some 3)]
        (boot, none)).map
      (fun sp => (history sp.1, (history sp.1).getLast?, sp.1.g_current_page_info, sp.2))
      = some ([some 1, some 3], some (some 3), some 3, some 1) := by
  decide

/-- C13, amended. In every state reached from `init()` by calls in which no `create()` fails,
whenever the history is non-empty its top (last) entry is the currently active descriptor. -/
theorem history_top_is_active_page (pages : Nat → PageInfo_t) (s0 : State) (ops : List Op)
    (s : State)
    (hrun : run pages (Op.init :: ops) s0 = some s)
    (hok : failedCreates s.trace = failedCreates s0.trace)
    (hne : history s ≠ []) :
    (history s).getLast? = some s.g_current_page_info := by
  have ht := tidy_reachable pages s0 ops s hrun hok
  rcases hlast : (history s).getLast? with _ | x
  · exact absurd (List.getLast?_eq_none_iff.mp hlast) hne
  · rw [tidy_last pages s ht x hlast]

/-- Witness for C13 amended: the state after `init`, `switch_to(1)`, `switch_to(3)`. -/
theorem history_top_is_active_page_witness :
    (history stExTwo).getLast? = some stExTwo.g_current_page_info :=
  history_top_is_active_page pagesEx boot
    [Op.switch_page 1 (some 1), Op.switch_page 1 (some 3)] stExTwo
    (by decide) (by decide) (by decide)

/-- C16. Active/history synchronisation: in every state reached from `init()` by calls in
which no `create()` fails, the history is empty exactly when the active reference is null, and
a non-empty history has the active descriptor as its top (last) entry. -/
theorem active_history_synchronised (pages : Nat → PageInfo_t) (s0 : State) (ops : List Op)
    (s : State)
    (hrun : run pages (Op.init :: ops) s0 = some s)
    (hok : failedCreates s.trace = failedCreates s0.trace) :
    (history s = [] ↔ s.g_current_page_info = none) ∧
    (history s ≠ [] → (history s).getLast? = some s.g_current_page_info) := by
  have ht := tidy_reachable pages s0 ops s hrun hok
  have htop : history s ≠ [] → (history s).getLast? = some s.g_current_page_info := by
    intro hne
    rcases hlast : (history s).getLast? with _ | x
    · exact absurd (List.getLast?_eq_none_iff.mp hlast) hne
    · rw [tidy_last pages s ht x hlast]
  refine ⟨⟨?_, ?_⟩, htop⟩
  · intro hnil
    have h := ht.2.1
    rw [hnil] at h
    exact h
  · intro hnull
    by_contra hne
    have hlast := htop hne
    have hmem : s.g_current_page_info ∈ history s := List.mem_of_mem_getLast? hlast
    obtain ⟨a, _, ha, _⟩ := ht.1.2 _ hmem
    rw [hnull] at ha
    cases ha

/-- Witness for C16: the state after `init`, `switch_to(1)`, `switch_to(3)`, `back()`. -/
theorem active_history_synchronised_witness :
    (history stExBack = [] ↔ stExBack.g_current_page_info = none) ∧
    (history stExBack ≠ [] →
      (history stExBack).getLast? = some stExBack.g_current_page_info) :=
  active_history_synchronised pagesEx boot
    [Op.switch_page 1 (some 1), Op.switch_page 1 (some 3), Op.back 2] stExBack
    (by decide) (by decide)

/-- C17. No adjacent duplicates: in every state reached from `init()` by calls in which no
`create()` fails, no two consecutive entries of the history are the same descriptor, and a
`back()` that triggers a transition activates a descriptor different from the active one. -/
theorem history_has_no_adjacent_duplicates (pages : Nat → PageInfo_t) (s0 : State)
    (ops : List Op) (s : State)
    (hrun : run pages (Op.init :: ops) s0 = some s)
    (hok : failedCreates s.trace = failedCreates s0.trace) :
    (history s).Chain' (fun p q => p ≠ q) ∧
    (∀ i, i + 1 < (history s).length → (history s)[i]? ≠ (history s)[i + 1]?) ∧
    (∀ w s2, screen_manager_back pages w s = some s2 →
      transitions s2.trace ≠ transitions s.trace →
      s2.g_current_page_info ≠ s.g_current_page_info) := by
  have ht := tidy_reachable pages s0 ops s hrun hok
  exact ⟨ht.2.2, chain_neighbours_differ (history s) ht.2.2,
    fun w s2 hback hmoved => tidy_back_changes_active pages w s s2 ht hback hmoved⟩

/-- Witness for C17: the state after `init`, `switch_to(1)`, `switch_to(3)`. -/
theorem history_has_no_adjacent_duplicates_witness :
    (history stExTwo).Chain' (fun p q => p ≠ q) ∧
    (∀ i, i + 1 < (history stExTwo).length →
      (history stExTwo)[i]? ≠ (history stExTwo)[i + 1]?) ∧
    (∀ w s2, screen_manager_back pagesEx w stExTwo = some s2 →
      transitions s2.trace ≠ transitions stExTwo.trace →
      s2.g_current_page_info ≠ stExTwo.g_current_page_info) :=
  history_has_no_adjacent_duplicates pagesEx boot
    [Op.switch_page 1 (some 1), Op.switch_page 1 (some 3)] stExTwo
    (by decide) (by decide)

/-- C14. Overflow scenario: for six pairwise distinct valid descriptors `A .. F` whose
`create()` always succeeds, `init()` followed by `switch_to` of `A`, `B`, `C`, `D`, `E`, `F`
runs to a state with history `[B, C, D, E, F]` (`A` evicted, oldest first) and active
reference `F`. -/
theorem six_switches_evict_the_first (pages : Nat → PageInfo_t) (s0 : State)
    (w1 w2 w3 w4 w5 w6 : World) (a b c d e f : Nat)
    (hdist : [a, b, c, d, e, f].Nodup)
    (hvalid : ∀ x ∈ [a, b, c, d, e, f], AlwaysCreates pages x) :
    ∃ s, run pages [Op.init, Op.switch_page w1 (some a), Op.switch_page w2 (some b),
        Op.switch_page w3 (some c), Op.switch_page w4 (some d), Op.switch_page w5 (some e),
        Op.switch_page w6 (some f)] s0 = some s ∧
      history s = [some b, some c, some d, some e, some f] ∧
      s.g_current_page_info = some f := by
  have hab : a ≠ b := by intro h; subst h; simp at hdist
  have hbc : b ≠ c := by intro h; subst h; simp at hdist
  have hcd : c ≠ d := by intro h; subst h; simp at hdist
  have hde : d ≠ e := by intro h; subst h; simp at hdist
  have hef : e ≠ f := by intro h; subst h; simp at hdist
  obtain ⟨s1, h1, hcap1, hcur1, hhist1⟩ :=
    switch_page_valid pages w1 a (screen_manager_init s0) (Nat.zero_le _)
      (hvalid a (by simp)) (by simp [screen_manager_init])
  rw [history_init] at hhist1
  obtain ⟨s2, h2, hcap2, hcur2, hhist2⟩ :=
    switch_page_valid pages w2 b s1 hcap1 (hvalid b (by simp))
      (by rw [hcur1]; intro h; exact hab (Option.some.inj h))
  rw [hhist1] at hhist2
  obtain ⟨s3, h3, hcap3, hcur3, hhist3⟩ :=
    switch_page_valid pages w3 c s2 hcap2 (hvalid c (by simp))
      (by rw [hcur2]; intro h; exact hbc (Option.some.inj h))
  rw [hhist2] at hhist3
  obtain ⟨s4, h4, hcap4, hcur4, hhist4⟩ :=
    switch_page_valid pages w4 d s3 hcap3 (hvalid d (by simp))
      (by rw [hcur3]; intro h; exact hcd (Option.some.inj h))
  rw [hhist3] at hhist4
  obtain ⟨s5, h5, hcap5, hcur5, hhist5⟩ :=
    switch_page_valid pages w5 e s4 hcap4 (hvalid e (by simp))
      (by rw [hcur4]; intro h; exact hde (Option.some.inj h))
  rw [hhist4] at hhist5
  obtain ⟨s6, h6, _, hcur6, hhist6⟩ :=
    switch_page_valid pages w6 f s5 hcap5 (hvalid f (by simp))
      (by rw [hcur5]; intro h; exact hef (Option.some.inj h))
  rw [hhist5] at hhist6
  refine ⟨s6, ?_, ?_, hcur6⟩
  · simp [run, step, h1, h2, h3, h4, h5, h6]
  · rw [hhist6]; simp [MAX_HISTORY_DEEP]

/-- Witness for C14: descriptors 1 to 6 of the always-creating table, from the boot state. -/
theorem six_switches_evict_the_first_witness :
    ∃ s, run pagesOk [Op.init, Op.switch_page 1 (some 1), Op.switch_page 2 (some 2),
        Op.switch_page 3 (some 3), Op.switch_page 4 (some 4), Op.switch_page 5 (some 5),
        Op.switch_page 6 (some 6)] boot = some s ∧
      history s = [some 2, some 3, some 4, some 5, some 6] ∧
      s.g_current_page_info = some 6 :=
  six_switches_evict_the_first pagesOk boot 1 2 3 4 5 6 1 2 3 4 5 6 (by decide)
    (fun x _ => ⟨fun w => some (10 * x + w), rfl, fun w => ⟨10 * x + w, rfl⟩⟩)

/-- C15. Back scenario: for two distinct valid descriptors `A`, `B` whose `create()` always
succeeds, `init()`, `switch_to(A)`, `switch_to(B)`, `back()` runs to a state with active
reference `A` and history `[A]` (length 1), in which a further `back()` returns the state
unchanged, so it calls no `create`. -/
theorem switch_switch_back_returns (pages : Nat → PageInfo_t) (s0 : State)
    (w1 w2 w3 w4 : World) (a b : Nat)
    (hab : a ≠ b)
    (hva : AlwaysCreates pages a)
    (hvb : AlwaysCreates pages b) :
    ∃ s, run pages [Op.init, Op.switch_page w1 (some a), Op.switch_page w2 (some b),
        Op.back w3] s0 = some s ∧
      s.g_current_page_info = some a ∧
      history s = [some a] ∧
      (history s).length = 1 ∧
      screen_manager_back pages w4 s = some s := by
  obtain ⟨s1, h1, hcap1, hcur1, hhist1⟩ :=
    switch_page_valid pages w1 a (screen_manager_init s0) (Nat.zero_le _) hva
      (by simp [screen_manager_init])
  rw [history_init] at hhist1
  obtain ⟨s2, h2, hcap2, hcur2, hhist2⟩ :=
    switch_page_valid pages w2 b s1 hcap1 hvb
      (by rw [hcur1]; intro h; exact hab (Option.some.inj h))
  rw [hhist1] at hhist2
  have hhist2b : history s2 = [some a, some b] := by
    rw [hhist2]; simp [MAX_HISTORY_DEEP]
  obtain ⟨s3, h3, hcap3, hcur3, hhist3⟩ :=
    back_valid pages w3 a s2 hcap2 (by rw [hhist2b]; exact Nat.le_refl 2)
      (by rw [hhist2b]; rfl) hva
  rw [hhist2b] at hhist3
  have hhist3b : history s3 = [some a] := hhist3
  have htop3 : s3.g_history_top = 1 := by
    have hlen := history_length s3 hcap3
    rw [hhist3b] at hlen
    exact hlen.symm
  refine ⟨s3, ?_, hcur3, hhist3b, by rw [hhist3b]; rfl, ?_⟩
  · simp [run, step, h1, h2, h3]
  · simp [screen_manager_back, htop3]

/-- Witness for C15: descriptors 1 and 2 of the always-creating table, from the boot state. -/
theorem switch_switch_back_returns_witness :
    ∃ s, run pagesOk [Op.init, Op.switch_page 1 (some 1), Op.switch_page 2 (some 2),
        Op.back 3] boot = some s ∧
      s.g_current_page_info = some 1 ∧
      history s = [some 1] ∧
      (history s).length = 1 ∧
      screen_manager_back pagesOk 4 s = some s :=
  switch_switch_back_returns pagesOk boot 1 2 3 4 1 2 (by decide)
    ⟨fun w => some (10 * 1 + w), rfl, fun w => ⟨10 * 1 + w, rfl⟩⟩
    ⟨fun w => some (10 * 2 + w), rfl, fun w => ⟨10 * 2 + w, rfl⟩⟩

/-- C18. Array-access safety: from any prior state, `init()` followed by any calls (any
descriptors, any creation outcomes) runs to a state in which every further call returns, the
array accessors failing exactly on an index outside `[0, MAX_HISTORY_DEEP)`; every recorded
entry is a non-null descriptor with a `create` whose `create()` returned an object since that
`init()`; and when `back()` passes its guard, the index it reads is in bounds after a decrement
that leaves the top at least 1, the entry read is such a descriptor, and `do_switch_page` is
entered with it, past the invalid-descriptor return. -/
theorem history_accesses_stay_in_bounds (pages : Nat → PageInfo_t) (s0 : State)
    (ops : List Op) :
    ∃ s, run pages (Op.init :: ops) s0 = some s ∧
      (∀ op, ∃ s2, step pages op s = some s2) ∧
      (∀ p ∈ history s, ∃ a create o, p = some a ∧ (pages a).create = some create ∧
        Event.create a (some o) ∈ s.trace.drop s0.trace.length) ∧
      (1 < s.g_history_top →
        1 ≤ s.g_history_top - 1 ∧ s.g_history_top - 1 - 1 < MAX_HISTORY_DEEP ∧
        ∃ a create, s.g_history_stack.read (s.g_history_top - 1 - 1) = some (some a) ∧
          (pages a).create = some create ∧
          ∀ w, screen_manager_back pages w s
            = do_switch_page pages w (some a) true
                { s with g_history_top := s.g_history_top - 1 }) ∧
      (∀ (stk : HistoryArray) (i : Nat), stk.read i = none ↔ MAX_HISTORY_DEEP ≤ i) ∧
      (∀ (stk : HistoryArray) (i : Nat) (v : PagePtr),
        stk.write i v = none ↔ MAX_HISTORY_DEEP ≤ i) := by
  have hinit : CreatedSince s0.trace.length (screen_manager_init s0) := by
    refine ⟨Nat.le_refl _, ?_⟩
    intro p hp
    rw [history_init] at hp
    cases hp
  obtain ⟨s, hrun, hsafe, hprov⟩ :=
    createdSince_run pages s0.trace.length ops (screen_manager_init s0)
      (safe_init pages s0) hinit
  refine ⟨s, by simp [run, step, hrun], ?_, ?_, ?_, ?_, ?_⟩
  · intro op
    obtain ⟨s2, h2, _⟩ := safe_step pages op s hsafe
    exact ⟨s2, h2⟩
  · intro p hp
    obtain ⟨a, create, hpa, hc⟩ := hsafe.2 p hp
    obtain ⟨a2, o, hpa2, hev⟩ := hprov.2 p hp
    rw [hpa] at hpa2
    cases hpa2
    exact ⟨a, create, o, hpa, hc, hev⟩
  · intro hgt
    have hdepth : 2 ≤ s.g_history_top := hgt
    have hcap := hsafe.1
    obtain ⟨a, create, hprev, hc⟩ := safe_entry_below_top pages s hsafe hdepth
    refine ⟨by omega, by omega, a, create, ?_, hc, ?_⟩
    · have hlt : s.g_history_top - 2 < s.g_history_top := by omega
      have h := hprev
      unfold history at h
      rw [List.getElem?_take, if_pos hlt] at h
      unfold HistoryArray.read
      rw [Nat.sub_sub]
      exact h
    · intro w
      exact screen_manager_back_reads pages w s (some a) hdepth hprev
  · intro stk i
    unfold HistoryArray.read
    rw [List.getElem?_eq_none_iff, stk.size_eq]
  · intro stk i v
    unfold HistoryArray.write
    split
    · rename_i hlt
      simp only [reduceCtorEq, false_iff, not_le]
      exact hlt
    · rename_i hge
      simp only [true_iff]
      omega

end LvglViewManager
